import Mathlib

/-!
Verification development for the slang SystemVerilog lexer
(`src/source/Lexer.cpp`).  The lexer is shallowly embedded: the source
buffer is a `List Char` holding the content bytes, with the terminating
NUL sentinel at position `buf.length` left implicit (reading at or past
that position yields `'\x00'`).  Scanning loops are embedded as
fuel-indexed structural recursions returning `Option`; `none` means the
fuel ran out, which on sufficient fuel can only happen when the C++
loop itself fails to advance.  C++ `double` is embedded as IEEE-754
binary64: a canonical dyadic triple (sign, mantissa, exponent) for
finite values, with infinities and NaNs collapsed to `none` (the only
observation the lexer makes of a non-finite value is `std::isfinite`).
-/

set_option maxHeartbeats 10000000
set_option maxRecDepth 100000

namespace Slang

/-! ## Character classification (CharInfo)

Modelled from the spec: `CharInfo.h` is not under `src/`; the spec
describes predicates for ASCII, alpha, decimal/octal/hex/binary digit,
logic digit (x,X,z,Z,?), alphanumeric, horizontal whitespace, newline,
printable, digit-value extractors mapping characters to 0-15, and a
UTF-8 sequence-length estimate for non-ASCII lead bytes. -/

def isASCII (c : Char) : Bool := c.toNat < 128

def isDecimalDigit (c : Char) : Bool := '0' ≤ c && c ≤ '9'

def isOctalDigit (c : Char) : Bool := '0' ≤ c && c ≤ '7'

def isBinaryDigit (c : Char) : Bool := c = '0' || c = '1'

def isHexDigit (c : Char) : Bool :=
  ('0' ≤ c && c ≤ '9') || ('a' ≤ c && c ≤ 'f') || ('A' ≤ c && c ≤ 'F')

def isLogicDigit (c : Char) : Bool :=
  c = 'x' || c = 'X' || c = 'z' || c = 'Z' || c = '?'

def isAlphaNumeric (c : Char) : Bool :=
  ('a' ≤ c && c ≤ 'z') || ('A' ≤ c && c ≤ 'Z') || ('0' ≤ c && c ≤ '9')

def isNewline (c : Char) : Bool := c = '\n' || c = '\r'

def isHorizontalWhitespace (c : Char) : Bool := c = ' ' || c = '\t'

def isWhitespace (c : Char) : Bool :=
  c = ' ' || c = '\t' || c = '\x0b' || c = '\x0c' || c = '\r' || c = '\n'

def isPrintable (c : Char) : Bool := 32 ≤ c.toNat && c.toNat < 127

def getDigitValue (c : Char) : Nat := c.toNat - '0'.toNat

def getHexDigitValue (c : Char) : Nat :=
  if isDecimalDigit c then c.toNat - '0'.toNat
  else if 'a' ≤ c && c ≤ 'f' then c.toNat - 'a'.toNat + 10
  else c.toNat - 'A'.toNat + 10

/-- Modelled from the spec: number of continuation bytes to skip after a
non-ASCII lead byte ("a UTF-8 sequence-length estimate used only to skip
past the malformed input after diagnosing"). -/
def utf8SeqBytes (c : Char) : Nat :=
  if c.toNat ≥ 0xF0 then 3 else if c.toNat ≥ 0xE0 then 2
  else if c.toNat ≥ 0xC0 then 1 else 0

/-! ## Enumerations -/

/-- Diagnostic codes used by the lexer (`DiagCode` in `Diagnostics.h`). -/
inductive DiagCode where
  | UnicodeBOM | UTF8Char | NonPrintableChar | EmbeddedNull
  | UnterminatedStringLiteral | NewlineInStringLiteral
  | OctalEscapeCodeTooBig | InvalidHexEscapeCode | UnknownEscapeCode
  | EscapedWhitespace | MisplacedDirectiveChar
  | MissingFractionalDigits | MissingExponentDigits | RealExponentTooLarge
  | SignedLiteralTooLarge | IntegerSizeZero | IntegerSizeTooLarge
  | MissingVectorBase | MissingVectorDigits | InvalidUnsizedLiteral
  | UnterminatedBlockComment | NestedBlockComment
  | SplitBlockCommentInDirective
  deriving DecidableEq, Repr

/-- Lexing modes (`LexingMode` in `Lexer.h`, named in `Lexer.cpp`). -/
inductive LexingMode where
  | Normal | Directive | Include
  deriving DecidableEq, Repr

/-- Trivia kinds; directive kinds also live in `TriviaKind`
(`getDirectiveKind` returns a `TriviaKind`). -/
inductive TriviaKind where
  | Whitespace | EndOfLine | LineComment | BlockComment
  | IncludeDirective | MacroUsage | OtherDirective
  deriving DecidableEq, Repr

/-- Identifier categories (`IdentifierType`). -/
inductive IdentifierType where
  | Unknown | Normal | Escaped | System
  deriving DecidableEq, Repr

/-- A four-valued vector digit (`logic_t`): a numeric digit value 0-15,
or the unknown / high-impedance values x / z. -/
inductive LogicDigit where
  | val (n : Nat) | x | z
  deriving DecidableEq, Repr

/-- The base selected for a vector literal, i.e. which
(predicate, value) pair `lexVectorDigits` was instantiated with. -/
inductive VectorBase where
  | binary | octal | decimal | hex
  deriving DecidableEq, Repr

/-- Token kinds produced by the lexer (from `Token.h`; every kind named
in `Lexer.cpp`, plus `EndOfDirective` named by the spec). -/
inductive TokenKind where
  | Unknown | EndOfFile | EndOfDirective
  | Identifier | SystemIdentifier | Directive | MacroUsage
  | IntegerLiteral | RealLiteral | StringLiteral
  | MacroQuote | MacroPaste | MacroEscapedQuote
  | Exclamation | ExclamationEquals | ExclamationDoubleEquals | ExclamationEqualsQuestion
  | Hash | DoubleHash | HashMinusHash | HashEqualsHash
  | Dollar | Percent | PercentEqual
  | And | DoubleAnd | TripleAnd | AndEqual
  | ApostropheOpenBrace
  | OpenParenthesis | OpenParenthesisStar | CloseParenthesis
  | Star | DoubleStar | StarEqual | StarArrow | StarCloseParenthesis | StarDoubleColonStar
  | Plus | DoublePlus | PlusEqual | PlusColon
  | Comma
  | Minus | DoubleMinus | MinusEqual | MinusColon | MinusArrow | MinusDoubleArrow
  | Dot | DotStar
  | Slash | SlashEqual
  | Colon | ColonEquals | ColonSlash | DoubleColon
  | Semicolon
  | LessThan | LessThanEquals | LessThanMinusArrow
  | LeftShift | LeftShiftEqual | TripleLeftShift | TripleLeftShiftEqual
  | Equals | DoubleEquals | TripleEquals | DoubleEqualsQuestion | EqualsArrow
  | GreaterThan | GreaterThanEquals
  | RightShift | RightShiftEqual | TripleRightShift | TripleRightShiftEqual
  | Question | At | DoubleAt
  | OpenBracket | CloseBracket
  | Xor | XorTilde | XorEqual
  | OpenBrace | CloseBrace
  | Or | DoubleOr | OrMinusArrow | OrEqualsArrow | OrEqual
  | Tilde | TildeAnd | TildeOr | TildeXor
  deriving DecidableEq, Repr

/-! ## IEEE-754 binary64 model for C++ `double`

A finite double is `(-1)^sgn * m * 2^e` in canonical form: for zero,
`m = 0, e = 0, sgn = false`; for subnormals `m < 2^52, e = -1074`; for
normals `2^52 ≤ m < 2^53, -1074 ≤ e ≤ 971`.  Infinities and NaNs are
collapsed to `none`: the lexer only observes non-finiteness, via
`std::isfinite`.  Negative zero is collapsed to zero (never observed). -/

structure F64f where
  sgn : Bool
  m : Nat
  e : ℤ
  deriving DecidableEq, Repr

abbrev F64 := Option F64f

/-- Fuel-driven binary logarithm; correct for `n < 2^2048`, which covers
every number this development takes a logarithm of (mantissa products
have at most 106 bits, and the largest power-of-ten table entry 10^256
has 851 bits). -/
def log2go : Nat → Nat → Nat
  | 0, _ => 0
  | fuel + 1, n => if 2 ≤ n then log2go fuel (n / 2) + 1 else 0

def natLog2 (n : Nat) : Nat := log2go 2048 n

/-- Round-to-nearest, ties-to-even, of the rational `num / den`
(`den ≠ 0`) to an integer. -/
def nearestEvenDiv (num den : Nat) : Nat :=
  let q := num / den
  let r := num % den
  if 2 * r < den then q
  else if den < 2 * r then q + 1
  else if q % 2 = 0 then q else q + 1

/-- Decides `2 ^ k ≤ num / den` for an integer `k` and positive
naturals. -/
def pow2LE (k : ℤ) (num den : Nat) : Bool :=
  if 0 ≤ k then den * 2 ^ k.toNat ≤ num else den ≤ num * 2 ^ (-k).toNat

/-- Round the real value `(-1)^sgn * (N / D) * 2 ^ E` (with `D ≠ 0`) to
the nearest binary64 value (ties to even); `none` on overflow to
infinity. -/
def roundMD (sgn : Bool) (N D : Nat) (E : ℤ) : F64 :=
  if N = 0 then some ⟨false, 0, 0⟩ else
  let p : ℤ := natLog2 N
  let q : ℤ := natLog2 D
  let dl : ℤ := p - q
  let k : ℤ := if pow2LE dl N D then dl else dl - 1
  let K : ℤ := k + E
  if K < -1022 then
    -- subnormal range: round at fixed scale 2 ^ (-1074)
    let s : ℤ := 1074 + E
    let m := if 0 ≤ s then nearestEvenDiv (N * 2 ^ s.toNat) D
             else nearestEvenDiv N (D * 2 ^ (-s).toNat)
    if m = 0 then some ⟨false, 0, 0⟩ else some ⟨sgn, m, -1074⟩
  else
    let e : ℤ := K - 52
    let s : ℤ := E - e
    let m := if 0 ≤ s then nearestEvenDiv (N * 2 ^ s.toNat) D
             else nearestEvenDiv N (D * 2 ^ (-s).toNat)
    let me : Nat × ℤ := if m = 2 ^ 53 then (2 ^ 52, e + 1) else (m, e)
    if me.2 > 971 then none else some ⟨sgn, me.1, me.2⟩

/-- binary64 multiplication; any operation on a non-finite operand is
non-finite here (0 * inf is NaN, finite * inf is inf). -/
def fmul : F64 → F64 → F64
  | some a, some b => roundMD (xor a.sgn b.sgn) (a.m * b.m) 1 (a.e + b.e)
  | _, _ => none

/-- binary64 division as used by `composeDouble`: a finite value divided
by infinity is (signed) zero; division by zero or of a non-finite value
is non-finite. -/
def fdiv : F64 → F64 → F64
  | none, _ => none
  | some _, none => some ⟨false, 0, 0⟩
  | some a, some b =>
    if b.m = 0 then none
    else roundMD (xor a.sgn b.sgn) a.m b.m (a.e - b.e)

/-- Conversion of a `uint64_t` value to `double` (rounds to nearest). -/
def f64ofNat (n : Nat) : F64 := roundMD false n 1 0

def isfinite (x : F64) : Bool := x.isSome

end Slang

namespace Slang

/-! ## Cursor

Modelled from the spec: the cursor lives in `Lexer.h`, which is not
under `src/`.  The buffer content is `buf`; the NUL end sentinel sits
at position `buf.length` (the spec: "The trailing NUL is part of the
buffer and serves as an end sentinel; the lexer distinguishes a true
embedded NUL from the sentinel using a separate end pointer").  `peek`
yields the byte at the offset, or NUL at or beyond the sentinel;
`reallyAtEnd` is "position ≥ end", with the end pointer at the
sentinel: this is the unique reading consistent with every use in
`Lexer.cpp` (the `sourceBuffer <= sourceEnd` test after `advance()` in
`lexToken`, and the NUL branches of the string-literal, line-comment
and block-comment scanners). -/

def peek (buf : List Char) (pos : Nat) : Char := buf.getD pos '\x00'

def reallyAtEnd (buf : List Char) (pos : Nat) : Bool := buf.length ≤ pos

/-- The lexeme is the half-open byte range from the mark to the current
position. -/
def lexeme (buf : List Char) (mark pos : Nat) : List Char :=
  (buf.drop mark).take (pos - mark)

/-! ## Token payloads and results -/

/-- Kind-specific token payloads (`IdentifierInfo`, `DirectiveInfo`,
`StringLiteralInfo`, `NumericLiteralInfo`).  A vector literal records
the size and signedness given to `VectorBuilder::start` (`unsizedVec`
for `startUnsized`), the (predicate, value) instantiation of
`lexVectorDigits` as a `VectorBase`, and the accumulated four-valued
digits. -/
inductive TokenData where
  | none_
  | ident (lex : List Char) (type : IdentifierType)
  | directive (lex : List Char) (kind : TriviaKind)
  | strLit (lex : List Char) (value : List Char)
  | intLit (value : ℤ)
  | realLit (value : F64)
  | vecLit (size : Nat) (signed : Bool) (base : VectorBase) (digits : List LogicDigit)
  | unsizedVec (base : VectorBase) (digits : List LogicDigit)
  | bitLit (value : LogicDigit)
  deriving DecidableEq, Repr

structure Token where
  kind : TokenKind
  data : TokenData
  trivia : List TriviaKind
  deriving DecidableEq, Repr

/-- Result of `scanBlockComment`: the end-of-directive flag it returns,
the new position and mode, and the diagnostics it issued. -/
structure ScanRes where
  eod : Bool
  pos : Nat
  mode : LexingMode
  diags : List DiagCode
  deriving DecidableEq, Repr

/-- Result of `lexTrivia`: its boolean return value (true = an
`EndOfDirective` token must be issued), plus position, mode, collected
trivia kinds and diagnostics. -/
structure TriviaRes where
  signal : Bool
  pos : Nat
  mode : LexingMode
  trivia : List TriviaKind
  diags : List DiagCode
  deriving DecidableEq, Repr

/-- Result of the numeric / string payload scanners: the payload, the
diagnostics issued, and the new position. -/
structure NumRes where
  data : TokenData
  diags : List DiagCode
  pos : Nat
  deriving DecidableEq, Repr

/-- Result of `lexToken`. -/
structure TokRes where
  kind : TokenKind
  data : TokenData
  diags : List DiagCode
  pos : Nat
  mode : LexingMode
  deriving DecidableEq, Repr

/-! ## Trivia scanning -/

/-- `Lexer::scanWhitespace`: consume the whitespace run, returning the
end position (the leading whitespace byte was already consumed by
`lexTrivia`). -/
def scanWhitespace (fuel : Nat) (buf : List Char) (pos : Nat) : Option Nat :=
  match fuel with
  | 0 => none
  | fuel + 1 =>
    let c := peek buf pos
    if c = ' ' || c = '\t' || c = '\x0b' || c = '\x0c' then
      scanWhitespace fuel buf (pos + 1)
    else some pos

/-- `Lexer::scanLineComment`: scan to the newline or the true end of
the buffer; an embedded NUL is diagnosed and skipped. -/
def scanLineComment (fuel : Nat) (buf : List Char) (pos : Nat)
    (diags : List DiagCode) : Option (Nat × List DiagCode) :=
  match fuel with
  | 0 => none
  | fuel + 1 =>
    let c := peek buf pos
    if isNewline c then some (pos, diags)
    else if c = '\x00' then
      if reallyAtEnd buf pos then some (pos, diags)
      else scanLineComment fuel buf (pos + 1) (diags ++ [DiagCode.EmbeddedNull])
    else scanLineComment fuel buf (pos + 1) diags

/-- `Lexer::scanBlockComment`.  Note the embedded-NUL branch diagnoses
but does not advance, exactly as the C++ does; with any fuel the model
then returns `none`, reflecting that the loop never terminates. -/
def scanBlockComment (fuel : Nat) (buf : List Char) (pos : Nat)
    (mode : LexingMode) (eod : Bool) (diags : List DiagCode) : Option ScanRes :=
  match fuel with
  | 0 => none
  | fuel + 1 =>
    let c := peek buf pos
    if c = '\x00' then
      if reallyAtEnd buf pos then
        some ⟨eod, pos, mode, diags ++ [DiagCode.UnterminatedBlockComment]⟩
      else
        scanBlockComment fuel buf pos mode eod (diags ++ [DiagCode.EmbeddedNull])
    else if c = '*' && peek buf (pos + 1) = '/' then
      some ⟨eod, pos + 2, mode, diags⟩
    else if c = '/' && peek buf (pos + 1) = '*' then
      scanBlockComment fuel buf (pos + 2) mode eod (diags ++ [DiagCode.NestedBlockComment])
    else
      if mode ≠ LexingMode.Normal && isNewline c then
        scanBlockComment fuel buf (pos + 1) LexingMode.Normal true
          (diags ++ [DiagCode.SplitBlockCommentInDirective])
      else
        scanBlockComment fuel buf (pos + 1) mode eod diags

/-- `Lexer::lexTrivia`.  In the backslash case the C++ tests
`!isNewline(peek())` where `peek()` still yields the backslash itself
(nothing was consumed since the `switch (peek())`); the model
reproduces that test verbatim. -/
def lexTrivia (fuel : Nat) (buf : List Char) (pos : Nat) (mode : LexingMode)
    (trivia : List TriviaKind) (diags : List DiagCode) : Option TriviaRes :=
  match fuel with
  | 0 => none
  | fuel + 1 =>
    let c := peek buf pos
    if c = ' ' || c = '\t' || c = '\x0b' || c = '\x0c' then do
      let e ← scanWhitespace fuel buf (pos + 1)
      lexTrivia fuel buf e mode (trivia ++ [TriviaKind.Whitespace]) diags
    else if c = '/' && peek buf (pos + 1) = '/' then do
      let (e, dgs) ← scanLineComment fuel buf (pos + 2) []
      lexTrivia fuel buf e mode (trivia ++ [TriviaKind.LineComment]) (diags ++ dgs)
    else if c = '/' && peek buf (pos + 1) = '*' then do
      let r ← scanBlockComment fuel buf (pos + 2) mode false []
      if r.eod then
        some ⟨true, r.pos, r.mode, trivia ++ [TriviaKind.BlockComment], diags ++ r.diags⟩
      else
        lexTrivia fuel buf r.pos r.mode (trivia ++ [TriviaKind.BlockComment]) (diags ++ r.diags)
    else if c = '\r' then
      if mode ≠ LexingMode.Normal then
        some ⟨true, if peek buf (pos + 1) = '\n' then pos + 2 else pos + 1,
              mode, trivia ++ [TriviaKind.EndOfLine], diags⟩
      else
        lexTrivia fuel buf (if peek buf (pos + 1) = '\n' then pos + 2 else pos + 1)
          mode (trivia ++ [TriviaKind.EndOfLine]) diags
    else if c = '\n' then
      if mode ≠ LexingMode.Normal then
        some ⟨true, pos + 1, mode, trivia ++ [TriviaKind.EndOfLine], diags⟩
      else lexTrivia fuel buf (pos + 1) mode (trivia ++ [TriviaKind.EndOfLine]) diags
    else if c = '\\' then
      if mode = LexingMode.Normal || !isNewline (peek buf pos) then
        some ⟨false, pos, mode, trivia, diags⟩
      else lexTrivia fuel buf (pos + 1) mode trivia diags
    else some ⟨false, pos, mode, trivia, diags⟩

end Slang

namespace Slang

/-! ## String literals -/

/-- Result of decoding one escape sequence inside a string literal. -/
structure EscRes where
  out : List Char
  diags : List DiagCode
  pos : Nat
  deriving DecidableEq, Repr

/-- The body of the `c == '\\'` branch of `Lexer::lexStringLiteral`:
`pos` is the position of the backslash; both the backslash and the
escape character are consumed, then the `switch` on the escape
character runs.  Returns the bytes appended to the string buffer, the
diagnostics issued, and the new position. -/
def stringEscape (buf : List Char) (pos : Nat) : EscRes :=
  let c := peek buf (pos + 1)
  if c = 'n' then ⟨['\n'], [], pos + 2⟩
  else if c = 't' then ⟨['\t'], [], pos + 2⟩
  else if c = '\\' then ⟨['\\'], [], pos + 2⟩
  else if c = '"' then ⟨['"'], [], pos + 2⟩
  else if c = 'v' then ⟨['\x0b'], [], pos + 2⟩
  else if c = 'f' then ⟨['\x0c'], [], pos + 2⟩
  else if c = 'a' then ⟨['\x07'], [], pos + 2⟩
  else if c = '\n' then ⟨[], [], pos + 2⟩
  else if c = '\r' then
    ⟨[], [], if peek buf (pos + 2) = '\n' then pos + 3 else pos + 2⟩
  else if isOctalDigit c then
    let v1 := getDigitValue c
    let c2 := peek buf (pos + 2)
    if isOctalDigit c2 then
      let v2 := v1 * 8 + getDigitValue c2
      let c3 := peek buf (pos + 3)
      if isOctalDigit c3 then
        let v3 := v2 * 8 + getDigitValue c3
        if v3 > 255 then ⟨[], [DiagCode.OctalEscapeCodeTooBig], pos + 4⟩
        else ⟨[Char.ofNat v3], [], pos + 4⟩
      else ⟨[Char.ofNat v2], [], pos + 3⟩
    else ⟨[Char.ofNat v1], [], pos + 2⟩
  else if c = 'x' then
    let c1 := peek buf (pos + 2)
    if !isHexDigit c1 then ⟨[c1], [DiagCode.InvalidHexEscapeCode], pos + 3⟩
    else
      let v1 := getHexDigitValue c1
      let c2 := peek buf (pos + 3)
      if isHexDigit c2 then ⟨[Char.ofNat (v1 * 16 + getHexDigitValue c2)], [], pos + 4⟩
      else ⟨[Char.ofNat v1], [], pos + 3⟩
  else ⟨[c], [DiagCode.UnknownEscapeCode], pos + 2⟩

/-- `Lexer::lexStringLiteral`: `mark` is the start of the token (the
opening quote), `pos` the current position.  Note that the embedded-NUL
branch diagnoses but does not advance, exactly as the C++ does, so on
such an input the loop never terminates and the model yields `none`
for every fuel. -/
def lexStringLiteral (fuel : Nat) (buf : List Char) (mark pos : Nat)
    (acc : List Char) (diags : List DiagCode) : Option NumRes :=
  match fuel with
  | 0 => none
  | fuel + 1 =>
    let c := peek buf pos
    if c = '\\' then
      let r := stringEscape buf pos
      lexStringLiteral fuel buf mark r.pos (acc ++ r.out) (diags ++ r.diags)
    else if c = '"' then
      some ⟨TokenData.strLit (lexeme buf mark (pos + 1)) acc, diags, pos + 1⟩
    else if isNewline c then
      some ⟨TokenData.strLit (lexeme buf mark pos) acc,
            diags ++ [DiagCode.NewlineInStringLiteral], pos⟩
    else if c = '\x00' then
      if reallyAtEnd buf pos then
        some ⟨TokenData.strLit (lexeme buf mark pos) acc,
              diags ++ [DiagCode.UnterminatedStringLiteral], pos⟩
      else
        lexStringLiteral fuel buf mark pos acc (diags ++ [DiagCode.EmbeddedNull])
    else
      lexStringLiteral fuel buf mark (pos + 1) (acc ++ [c]) diags

/-! ## Identifier, escaped, system and directive scanners -/

/-- `Lexer::scanIdentifier`: consume `[A-Za-z0-9_$]*`, returning the end
position. -/
def scanIdentifier (fuel : Nat) (buf : List Char) (pos : Nat) : Option Nat :=
  match fuel with
  | 0 => none
  | fuel + 1 =>
    let c := peek buf pos
    if isAlphaNumeric c || c = '_' || c = '$' then scanIdentifier fuel buf (pos + 1)
    else some pos

/-- The scanning loop of `Lexer::lexEscapeSequence`: while the current
character is printable, advance, and stop just after it when the next
character is whitespace. -/
def escapedIdentLoop (fuel : Nat) (buf : List Char) (pos : Nat) : Option Nat :=
  match fuel with
  | 0 => none
  | fuel + 1 =>
    let c := peek buf pos
    if isPrintable c then
      if isWhitespace (peek buf (pos + 1)) then some (pos + 1)
      else escapedIdentLoop fuel buf (pos + 1)
    else some pos

/-- `Lexer::lexEscapeSequence`: `mark` is at the backslash, `pos` just
after it. -/
def lexEscapeSequence (fuel : Nat) (buf : List Char) (mark pos : Nat)
    (mode : LexingMode) : Option TokRes :=
  let c := peek buf pos
  if isWhitespace c || c = '\x00' then
    some ⟨TokenKind.Unknown, TokenData.ident (lexeme buf mark pos) IdentifierType.Unknown,
          [DiagCode.EscapedWhitespace], pos, mode⟩
  else do
    let e ← escapedIdentLoop fuel buf pos
    some ⟨TokenKind.Identifier, TokenData.ident (lexeme buf mark e) IdentifierType.Escaped,
          [], e, mode⟩

/-- `Lexer::lexDollarSign`: `mark` is at the dollar sign, `pos` just
after it. -/
def lexDollarSign (fuel : Nat) (buf : List Char) (mark pos : Nat)
    (mode : LexingMode) : Option TokRes := do
  let e ← scanIdentifier fuel buf pos
  if e - mark = 1 then some ⟨TokenKind.Dollar, TokenData.none_, [], e, mode⟩
  else
    some ⟨TokenKind.SystemIdentifier,
          TokenData.ident (lexeme buf mark e) IdentifierType.System, [], e, mode⟩

/-- Modelled from the spec: `getDirectiveKind` lives in the syntax-facts
collaborator, not under `src/`.  "Recognized directive kind determines
follow-on mode": the include directive maps to `IncludeDirective`,
other recognized directive names to a non-include directive kind, and
anything else is a macro usage. -/
def getDirectiveKind (lex : List Char) : TriviaKind :=
  if lex = "`include".toList then TriviaKind.IncludeDirective
  else if lex = "`define".toList || lex = "`undef".toList ||
          lex = "`ifdef".toList || lex = "`ifndef".toList ||
          lex = "`else".toList || lex = "`elsif".toList ||
          lex = "`endif".toList || lex = "`timescale".toList ||
          lex = "`resetall".toList then TriviaKind.OtherDirective
  else TriviaKind.MacroUsage

/-- `Lexer::lexDirective`: `mark` is at the backquote, `pos` just after
it. -/
def lexDirective (fuel : Nat) (buf : List Char) (mark pos : Nat)
    (mode : LexingMode) : Option TokRes := do
  let e ← scanIdentifier fuel buf pos
  if e - mark = 1 then
    some ⟨TokenKind.Unknown, TokenData.ident (lexeme buf mark e) IdentifierType.Unknown,
          [DiagCode.MisplacedDirectiveChar], e, mode⟩
  else
    let lex := lexeme buf mark e
    let type := getDirectiveKind lex
    match type with
    | TriviaKind.MacroUsage =>
      some ⟨TokenKind.MacroUsage, TokenData.directive lex type, [], e, mode⟩
    | TriviaKind.IncludeDirective =>
      some ⟨TokenKind.Directive, TokenData.directive lex type, [], e, LexingMode.Include⟩
    | _ =>
      some ⟨TokenKind.Directive, TokenData.directive lex type, [], e, LexingMode.Directive⟩

end Slang

namespace Slang

/-! ## Real-number composition -/

/-- The `powersOf10` table: the C++ literals `10.0, 100.0, 1.0e4, ...,
1.0e256` as binary64 values (each literal is the nearest double to the
exact power of ten). -/
def powersOf10 (d : Nat) : F64 := roundMD false (10 ^ 2 ^ d) 1 0

/-- The accumulation loop of `composeDouble`:
`for (auto d = powersOf10; exp != 0; exp >>= 1, d++) if (exp & 0x1) dblExp *= *d;`.
The exponent is at most 511 after clamping, so at most 9 iterations run
and a fuel of 10 always suffices (the table is never overrun). -/
def composeLoop (fuel : Nat) (exp : Nat) (d : Nat) (dblExp : F64) : F64 :=
  match fuel with
  | 0 => dblExp
  | fuel + 1 =>
    if exp = 0 then dblExp
    else composeLoop fuel (exp / 2) (d + 1)
      (if exp % 2 = 1 then fmul dblExp (powersOf10 d) else dblExp)

/-- `composeDouble` (anonymous namespace of `Lexer.cpp`): multiply or
divide `fraction` by 10^|exp| with |exp| clamped to `MaxExponent = 511`,
composing the power by binary decomposition over the table; the boolean
result is `std::isfinite(result)`.  The C++ negates a signed `int`
exponent, which for the single value `-2^31` is undefined behaviour;
the model negates exactly. -/
def composeDouble (fraction : F64) (exp : ℤ) : F64 × Bool :=
  let neg := exp < 0
  let e1 := if neg then -exp else exp
  let e2 := if e1 > 511 then 511 else e1
  let dblExp := composeLoop 10 e2.toNat 0 (some ⟨false, 2 ^ 52, -52⟩)
  let result := if neg then fdiv fraction dblExp else fmul fraction dblExp
  (result, isfinite result)

/-! ## Numeric literal scanning -/

/-- Reduction of a `uint64_t` value to a signed 32-bit `int`, as the
C++ conversion `int(expVal)` behaves on two's-complement targets
(reduction modulo 2^32 into the signed range). -/
def wrapInt32 (z : ℤ) : ℤ :=
  let r := z % 4294967296
  if r < 2147483648 then r else r - 4294967296

/-- The leading-zero skip at the top of `lexNumericLiteral` and in the
exponent scan of `lexRealLiteral`: `while ((c = peek()) == '0') advance();`. -/
def skipLeadingZeros (fuel : Nat) (buf : List Char) (pos : Nat) : Option Nat :=
  match fuel with
  | 0 => none
  | fuel + 1 =>
    if peek buf pos = '0' then skipLeadingZeros fuel buf (pos + 1) else some pos

/-- `Lexer::scanUnsignedNumber`: scan decimal digits and underscores;
after `MaxMantissaDigits = 18` digits the value stops accumulating but
the digit count keeps growing.  The C++ threads the current character
in and out; the model re-peeks at the returned position. -/
def scanUnsignedNumber (fuel : Nat) (buf : List Char) (pos : Nat)
    (val digits : Nat) : Option (Nat × Nat × Nat) :=
  match fuel with
  | 0 => none
  | fuel + 1 =>
    let c := peek buf pos
    if isDecimalDigit c then
      scanUnsignedNumber fuel buf (pos + 1)
        (if digits < 18 then val * 10 + getDigitValue c else val) (digits + 1)
    else if c = '_' then
      scanUnsignedNumber fuel buf (pos + 1) val digits
    else some (val, digits, pos)

/-- `Lexer::findNextNonWhitespace`: lookahead distance to the next
non-horizontal-whitespace character. -/
def findNextNonWhitespace (fuel : Nat) (buf : List Char) (pos : Nat) : Option Nat :=
  match fuel with
  | 0 => none
  | fuel + 1 =>
    if isHorizontalWhitespace (peek buf pos) then do
      let la ← findNextNonWhitespace fuel buf (pos + 1)
      some (la + 1)
    else some 0

/-- `Lexer::lexRealLiteral`: `pos` is at the exponent letter when
`exponent` is true.  Scans the optional exponent (leading zeros are
skipped before the sign is read, as in the C++), then composes the
double.  The raw lexeme stored in `NumericLiteralInfo` is determined
by the token positions and is not repeated in the payload here. -/
def lexRealLiteral (fuel : Nat) (buf : List Char) (pos : Nat)
    (value : Nat) (decPoint digits : Nat) (exponent : Bool) : Option NumRes := do
  let (neg, expVal, diags, pos') ←
    if exponent then do
      let p1 ← skipLeadingZeros fuel buf (pos + 1)
      let c := peek buf p1
      let (neg, p2) := if c = '+' then (false, p1 + 1)
                       else if c = '-' then (true, p1 + 1)
                       else (false, p1)
      let c2 := peek buf p2
      if !isDecimalDigit c2 then
        some (neg, 0, [DiagCode.MissingExponentDigits], p2)
      else do
        let (expVal, _, p3) ← scanUnsignedNumber fuel buf p2 0 0
        some (neg, expVal, [], p3)
    else some (false, 0, [], pos)
  let fracExp : ℤ := (decPoint : ℤ) - min digits 18
  let exp : ℤ := if neg then wrapInt32 (fracExp - wrapInt32 expVal)
                 else wrapInt32 (fracExp + wrapInt32 expVal)
  let (result, finite) := composeDouble (f64ofNat value) exp
  let diags := if finite then diags else diags ++ [DiagCode.RealExponentTooLarge]
  some ⟨TokenData.realLit result, diags, pos'⟩

/-! ## Vector literals -/

/-- The digit predicate a `lexVectorDigits` instantiation uses. -/
def baseIsDigit : VectorBase → Char → Bool
  | VectorBase.binary => isBinaryDigit
  | VectorBase.octal => isOctalDigit
  | VectorBase.decimal => isDecimalDigit
  | VectorBase.hex => isHexDigit

/-- The digit value function a `lexVectorDigits` instantiation uses. -/
def baseDigitValue : VectorBase → Char → Nat
  | VectorBase.hex => getHexDigitValue
  | _ => getDigitValue

/-- `VectorBuilder` state: `start(size, isSigned)` for sized literals,
`startUnsized()` for unsized ones.  Modelled from the spec (the builder
lives outside `src/`): it only accumulates digits and reproduces the
size/signedness in the final vector. -/
def VecState := Option (Nat × Bool)

/-- Build the final literal payload from the builder state
(`vectorBuilder.toVector()`). -/
def toVector (st : VecState) (base : VectorBase) (digits : List LogicDigit) : TokenData :=
  match st with
  | some (size, signed) => TokenData.vecLit size signed base digits
  | none => TokenData.unsizedVec base digits

/-- The digit loop of `Lexer::lexVectorDigits`. -/
def vectorDigitsLoop (fuel : Nat) (buf : List Char) (pos : Nat) (st : VecState)
    (base : VectorBase) (acc : List LogicDigit) : Option NumRes :=
  match fuel with
  | 0 => none
  | fuel + 1 =>
    let c := peek buf pos
    if c = '_' then vectorDigitsLoop fuel buf (pos + 1) st base acc
    else if c = 'z' || c = 'Z' || c = '?' then
      vectorDigitsLoop fuel buf (pos + 1) st base (acc ++ [LogicDigit.z])
    else if c = 'x' || c = 'X' then
      vectorDigitsLoop fuel buf (pos + 1) st base (acc ++ [LogicDigit.x])
    else if baseIsDigit base c then
      vectorDigitsLoop fuel buf (pos + 1) st base
        (acc ++ [LogicDigit.val (baseDigitValue base c)])
    else some ⟨toVector st base acc, [], pos⟩

/-- `Lexer::lexVectorDigits`: skip leading horizontal whitespace,
require at least one digit or logic digit, then loop. -/
def lexVectorDigits (fuel : Nat) (buf : List Char) (pos : Nat) (st : VecState)
    (base : VectorBase) : Option NumRes := do
  let la ← findNextNonWhitespace fuel buf pos
  let c := peek buf (pos + la)
  if !(baseIsDigit base c) && !(isLogicDigit c) then
    some ⟨TokenData.intLit 0, [DiagCode.MissingVectorDigits], pos⟩
  else vectorDigitsLoop fuel buf (pos + la) st base []

/-- `Lexer::lexVectorLiteral`: `pos` is just after the apostrophe,
`size64` the scanned size value. -/
def lexVectorLiteral (fuel : Nat) (buf : List Char) (pos : Nat)
    (size64 : Nat) : Option NumRes := do
  let size32 : Nat :=
    if size64 = 0 then 0
    else if size64 > 4294967295 then 4294967295
    else size64
  let sizeDiags : List DiagCode :=
    if size64 = 0 then [DiagCode.IntegerSizeZero]
    else if size64 > 4294967295 then [DiagCode.IntegerSizeTooLarge]
    else []
  let c := peek buf pos
  let (isSigned, pos1) := if c = 's' || c = 'S' then (true, pos + 1) else (false, pos)
  let c1 := peek buf pos1
  let st : VecState := some (size32, isSigned)
  if c1 = 'd' || c1 = 'D' then do
    let r ← lexVectorDigits fuel buf (pos1 + 1) st VectorBase.decimal
    some ⟨r.data, sizeDiags ++ r.diags, r.pos⟩
  else if c1 = 'o' || c1 = 'O' then do
    let r ← lexVectorDigits fuel buf (pos1 + 1) st VectorBase.octal
    some ⟨r.data, sizeDiags ++ r.diags, r.pos⟩
  else if c1 = 'h' || c1 = 'H' then do
    let r ← lexVectorDigits fuel buf (pos1 + 1) st VectorBase.hex
    some ⟨r.data, sizeDiags ++ r.diags, r.pos⟩
  else if c1 = 'b' || c1 = 'B' then do
    let r ← lexVectorDigits fuel buf (pos1 + 1) st VectorBase.binary
    some ⟨r.data, sizeDiags ++ r.diags, r.pos⟩
  else
    some ⟨TokenData.intLit 0, sizeDiags ++ [DiagCode.MissingVectorBase], pos1⟩

/-- `Lexer::lexUnsizedNumericLiteral`: `pos` is just after the
apostrophe. -/
def lexUnsizedNumericLiteral (fuel : Nat) (buf : List Char) (pos : Nat) : Option NumRes :=
  let c := peek buf pos
  if c = 'd' || c = 'D' then lexVectorDigits fuel buf (pos + 1) none VectorBase.decimal
  else if c = 'o' || c = 'O' then lexVectorDigits fuel buf (pos + 1) none VectorBase.octal
  else if c = 'h' || c = 'H' then lexVectorDigits fuel buf (pos + 1) none VectorBase.hex
  else if c = 'b' || c = 'B' then lexVectorDigits fuel buf (pos + 1) none VectorBase.binary
  else if c = '0' || c = '1' then
    some ⟨TokenData.bitLit (LogicDigit.val (getDigitValue c)), [], pos + 1⟩
  else if c = 'x' || c = 'X' then some ⟨TokenData.bitLit LogicDigit.x, [], pos + 1⟩
  else if c = 'z' || c = 'Z' then some ⟨TokenData.bitLit LogicDigit.z, [], pos + 1⟩
  else some ⟨TokenData.intLit 0, [DiagCode.InvalidUnsizedLiteral], pos⟩

/-- `Lexer::lexNumericLiteral`: `pos` is at the first digit (the
dispatch backed the cursor up). -/
def lexNumericLiteral (fuel : Nat) (buf : List Char) (pos : Nat) : Option NumRes := do
  let p1 ← skipLeadingZeros fuel buf pos
  let (unsignedVal, digits, p2) ← scanUnsignedNumber fuel buf p1 0 0
  let lookahead ← findNextNonWhitespace fuel buf p2
  if lookahead > 0 && peek buf (p2 + lookahead) = '\'' then
    lexVectorLiteral fuel buf (p2 + lookahead + 1) unsignedVal
  else
    let c := peek buf p2
    if c = '\'' then
      lexVectorLiteral fuel buf (p2 + 1) unsignedVal
    else if c = '.' then do
      let decPoint := digits
      let p3 := p2 + 1
      let fracDiags :=
        if !isDecimalDigit (peek buf p3) then [DiagCode.MissingFractionalDigits]
        else ([] : List DiagCode)
      let (value, digits2, p4) ← scanUnsignedNumber fuel buf p3 unsignedVal digits
      let c2 := peek buf p4
      let r ← lexRealLiteral fuel buf p4 value decPoint digits2 (c2 = 'e' || c2 = 'E')
      some ⟨r.data, fracDiags ++ r.diags, r.pos⟩
    else if c = 'e' || c = 'E' then
      lexRealLiteral fuel buf p2 unsignedVal digits digits true
    else
      if unsignedVal > 2147483647 then
        some ⟨TokenData.intLit 2147483647, [DiagCode.SignedLiteralTooLarge], p2⟩
      else
        some ⟨TokenData.intLit unsignedVal, [], p2⟩

end Slang

namespace Slang

/-! ## Token dispatch -/

/-- `Lexer::lexToken`: branch on the first character.  `pos` is the
mark (start of the token); the C++ does `c = peek(); advance();` and
then switches on `c`. -/
def lexToken (fuel : Nat) (buf : List Char) (pos : Nat) (mode : LexingMode) : Option TokRes :=
  let c := peek buf pos
  let p := pos + 1
  if c = '\x00' then
    -- already advanced past the NUL: embedded iff sourceBuffer <= sourceEnd
    if p ≤ buf.length then
      some ⟨TokenKind.Unknown, TokenData.ident (lexeme buf pos p) IdentifierType.Unknown,
            [DiagCode.EmbeddedNull], p, mode⟩
    else some ⟨TokenKind.EndOfFile, TokenData.none_, [], p, mode⟩
  else if c = '!' then
    if peek buf p = '=' then
      if peek buf (p + 1) = '=' then some ⟨TokenKind.ExclamationDoubleEquals, TokenData.none_, [], (p + 2), mode⟩
      else if peek buf (p + 1) = '?' then some ⟨TokenKind.ExclamationEqualsQuestion, TokenData.none_, [], (p + 2), mode⟩
      else some ⟨TokenKind.ExclamationEquals, TokenData.none_, [], (p + 1), mode⟩
    else some ⟨TokenKind.Exclamation, TokenData.none_, [], p, mode⟩
  else if c = '"' then do
    let r ← lexStringLiteral fuel buf pos p [] []
    some ⟨TokenKind.StringLiteral, r.data, r.diags, r.pos, mode⟩
  else if c = '#' then
    if peek buf p = '#' then some ⟨TokenKind.DoubleHash, TokenData.none_, [], (p + 1), mode⟩
    else if peek buf p = '-' then
      if peek buf (p + 1) = '#' then some ⟨TokenKind.HashMinusHash, TokenData.none_, [], (p + 2), mode⟩
      else some ⟨TokenKind.Hash, TokenData.none_, [], p, mode⟩
    else if peek buf p = '=' then
      if peek buf (p + 1) = '#' then some ⟨TokenKind.HashEqualsHash, TokenData.none_, [], (p + 2), mode⟩
      else some ⟨TokenKind.Hash, TokenData.none_, [], p, mode⟩
    else some ⟨TokenKind.Hash, TokenData.none_, [], p, mode⟩
  else if c = '$' then lexDollarSign fuel buf pos p mode
  else if c = '%' then
    if peek buf p = '=' then some ⟨TokenKind.PercentEqual, TokenData.none_, [], (p + 1), mode⟩
    else some ⟨TokenKind.Percent, TokenData.none_, [], p, mode⟩
  else if c = '&' then
    if peek buf p = '&' then
      if peek buf (p + 1) = '&' then some ⟨TokenKind.TripleAnd, TokenData.none_, [], (p + 2), mode⟩
      else some ⟨TokenKind.DoubleAnd, TokenData.none_, [], (p + 1), mode⟩
    else if peek buf p = '=' then some ⟨TokenKind.AndEqual, TokenData.none_, [], (p + 1), mode⟩
    else some ⟨TokenKind.And, TokenData.none_, [], p, mode⟩
  else if c = '\'' then
    if peek buf p = '{' then some ⟨TokenKind.ApostropheOpenBrace, TokenData.none_, [], (p + 1), mode⟩
    else do
      let r ← lexUnsizedNumericLiteral fuel buf p
      some ⟨TokenKind.IntegerLiteral, r.data, r.diags, r.pos, mode⟩
  else if c = '(' then
    if peek buf p = '*' then some ⟨TokenKind.OpenParenthesisStar, TokenData.none_, [], (p + 1), mode⟩
    else some ⟨TokenKind.OpenParenthesis, TokenData.none_, [], p, mode⟩
  else if c = ')' then some ⟨TokenKind.CloseParenthesis, TokenData.none_, [], p, mode⟩
  else if c = '*' then
    if peek buf p = '*' then some ⟨TokenKind.DoubleStar, TokenData.none_, [], (p + 1), mode⟩
    else if peek buf p = '=' then some ⟨TokenKind.StarEqual, TokenData.none_, [], (p + 1), mode⟩
    else if peek buf p = '>' then some ⟨TokenKind.StarArrow, TokenData.none_, [], (p + 1), mode⟩
    else if peek buf p = ')' then some ⟨TokenKind.StarCloseParenthesis, TokenData.none_, [], (p + 1), mode⟩
    else if peek buf p = ':' then
      if peek buf (p + 1) = ':' && peek buf (p + 2) = '*' then
        some ⟨TokenKind.StarDoubleColonStar, TokenData.none_, [], (p + 3), mode⟩
      else some ⟨TokenKind.Star, TokenData.none_, [], p, mode⟩
    else some ⟨TokenKind.Star, TokenData.none_, [], p, mode⟩
  else if c = '+' then
    if peek buf p = '+' then some ⟨TokenKind.DoublePlus, TokenData.none_, [], (p + 1), mode⟩
    else if peek buf p = '=' then some ⟨TokenKind.PlusEqual, TokenData.none_, [], (p + 1), mode⟩
    else if peek buf p = ':' then some ⟨TokenKind.PlusColon, TokenData.none_, [], (p + 1), mode⟩
    else some ⟨TokenKind.Plus, TokenData.none_, [], p, mode⟩
  else if c = ',' then some ⟨TokenKind.Comma, TokenData.none_, [], p, mode⟩
  else if c = '-' then
    if peek buf p = '-' then some ⟨TokenKind.DoubleMinus, TokenData.none_, [], (p + 1), mode⟩
    else if peek buf p = '=' then some ⟨TokenKind.MinusEqual, TokenData.none_, [], (p + 1), mode⟩
    else if peek buf p = ':' then some ⟨TokenKind.MinusColon, TokenData.none_, [], (p + 1), mode⟩
    else if peek buf p = '>' then
      if peek buf (p + 1) = '>' then some ⟨TokenKind.MinusDoubleArrow, TokenData.none_, [], (p + 2), mode⟩
      else some ⟨TokenKind.MinusArrow, TokenData.none_, [], (p + 1), mode⟩
    else some ⟨TokenKind.Minus, TokenData.none_, [], p, mode⟩
  else if c = '.' then
    if peek buf p = '*' then some ⟨TokenKind.DotStar, TokenData.none_, [], (p + 1), mode⟩
    else some ⟨TokenKind.Dot, TokenData.none_, [], p, mode⟩
  else if c = '/' then
    if peek buf p = '=' then some ⟨TokenKind.SlashEqual, TokenData.none_, [], (p + 1), mode⟩
    else some ⟨TokenKind.Slash, TokenData.none_, [], p, mode⟩
  else if isDecimalDigit c then do
    -- back up so that lexNumericLiteral can look at this digit again
    let r ← lexNumericLiteral fuel buf pos
    let kind := match r.data with
      | TokenData.realLit _ => TokenKind.RealLiteral
      | _ => TokenKind.IntegerLiteral
    some ⟨kind, r.data, r.diags, r.pos, mode⟩
  else if c = ':' then
    if peek buf p = '=' then some ⟨TokenKind.ColonEquals, TokenData.none_, [], (p + 1), mode⟩
    else if peek buf p = '/' then some ⟨TokenKind.ColonSlash, TokenData.none_, [], (p + 1), mode⟩
    else if peek buf p = ':' then some ⟨TokenKind.DoubleColon, TokenData.none_, [], (p + 1), mode⟩
    else some ⟨TokenKind.Colon, TokenData.none_, [], p, mode⟩
  else if c = ';' then some ⟨TokenKind.Semicolon, TokenData.none_, [], p, mode⟩
  else if c = '<' then
    if peek buf p = '=' then some ⟨TokenKind.LessThanEquals, TokenData.none_, [], (p + 1), mode⟩
    else if peek buf p = '-' then
      if peek buf (p + 1) = '>' then some ⟨TokenKind.LessThanMinusArrow, TokenData.none_, [], (p + 2), mode⟩
      else some ⟨TokenKind.LessThan, TokenData.none_, [], p, mode⟩
    else if peek buf p = '<' then
      if peek buf (p + 1) = '<' then
        if peek buf (p + 2) = '=' then some ⟨TokenKind.TripleLeftShiftEqual, TokenData.none_, [], (p + 3), mode⟩
        else some ⟨TokenKind.TripleLeftShift, TokenData.none_, [], (p + 2), mode⟩
      else if peek buf (p + 1) = '=' then some ⟨TokenKind.LeftShiftEqual, TokenData.none_, [], (p + 2), mode⟩
      else some ⟨TokenKind.LeftShift, TokenData.none_, [], (p + 1), mode⟩
    else some ⟨TokenKind.LessThan, TokenData.none_, [], p, mode⟩
  else if c = '=' then
    if peek buf p = '=' then
      if peek buf (p + 1) = '=' then some ⟨TokenKind.TripleEquals, TokenData.none_, [], (p + 2), mode⟩
      else if peek buf (p + 1) = '?' then some ⟨TokenKind.DoubleEqualsQuestion, TokenData.none_, [], (p + 2), mode⟩
      else some ⟨TokenKind.DoubleEquals, TokenData.none_, [], (p + 1), mode⟩
    else if peek buf p = '>' then some ⟨TokenKind.EqualsArrow, TokenData.none_, [], (p + 1), mode⟩
    else some ⟨TokenKind.Equals, TokenData.none_, [], p, mode⟩
  else if c = '>' then
    if peek buf p = '=' then some ⟨TokenKind.GreaterThanEquals, TokenData.none_, [], (p + 1), mode⟩
    else if peek buf p = '>' then
      if peek buf (p + 1) = '>' then
        if peek buf (p + 2) = '=' then some ⟨TokenKind.TripleRightShiftEqual, TokenData.none_, [], (p + 3), mode⟩
        else some ⟨TokenKind.TripleRightShift, TokenData.none_, [], (p + 2), mode⟩
      else if peek buf (p + 1) = '=' then some ⟨TokenKind.RightShiftEqual, TokenData.none_, [], (p + 2), mode⟩
      else some ⟨TokenKind.RightShift, TokenData.none_, [], (p + 1), mode⟩
    else some ⟨TokenKind.GreaterThan, TokenData.none_, [], p, mode⟩
  else if c = '?' then some ⟨TokenKind.Question, TokenData.none_, [], p, mode⟩
  else if c = '@' then
    if peek buf p = '@' then some ⟨TokenKind.DoubleAt, TokenData.none_, [], (p + 1), mode⟩
    else some ⟨TokenKind.At, TokenData.none_, [], p, mode⟩
  else if (('A' ≤ c && c ≤ 'Z') || ('a' ≤ c && c ≤ 'z') || c = '_') then do
    -- the C++ enumerates the letters and underscore as switch cases
    let e ← scanIdentifier fuel buf p
    some ⟨TokenKind.Identifier, TokenData.ident (lexeme buf pos e) IdentifierType.Normal,
          [], e, mode⟩
  else if c = '[' then some ⟨TokenKind.OpenBracket, TokenData.none_, [], p, mode⟩
  else if c = '\\' then lexEscapeSequence fuel buf pos p mode
  else if c = ']' then some ⟨TokenKind.CloseBracket, TokenData.none_, [], p, mode⟩
  else if c = '^' then
    if peek buf p = '~' then some ⟨TokenKind.XorTilde, TokenData.none_, [], (p + 1), mode⟩
    else if peek buf p = '=' then some ⟨TokenKind.XorEqual, TokenData.none_, [], (p + 1), mode⟩
    else some ⟨TokenKind.Xor, TokenData.none_, [], p, mode⟩
  else if c = '`' then
    if peek buf p = '"' then some ⟨TokenKind.MacroQuote, TokenData.none_, [], (p + 1), mode⟩
    else if peek buf p = '`' then some ⟨TokenKind.MacroPaste, TokenData.none_, [], (p + 1), mode⟩
    else if peek buf p = '\\' then
      if peek buf (p + 1) = '`' && peek buf (p + 2) = '"' then
        some ⟨TokenKind.MacroEscapedQuote, TokenData.none_, [], (p + 3), mode⟩
      else lexDirective fuel buf pos p mode
    else lexDirective fuel buf pos p mode
  else if c = '{' then some ⟨TokenKind.OpenBrace, TokenData.none_, [], p, mode⟩
  else if c = '|' then
    if peek buf p = '|' then some ⟨TokenKind.DoubleOr, TokenData.none_, [], (p + 1), mode⟩
    else if peek buf p = '-' then
      if peek buf (p + 1) = '>' then some ⟨TokenKind.OrMinusArrow, TokenData.none_, [], (p + 2), mode⟩
      else some ⟨TokenKind.Or, TokenData.none_, [], p, mode⟩
    else if peek buf p = '=' then
      if peek buf (p + 1) = '>' then some ⟨TokenKind.OrEqualsArrow, TokenData.none_, [], (p + 2), mode⟩
      else some ⟨TokenKind.OrEqual, TokenData.none_, [], (p + 1), mode⟩
    else some ⟨TokenKind.Or, TokenData.none_, [], p, mode⟩
  else if c = '}' then some ⟨TokenKind.CloseBrace, TokenData.none_, [], p, mode⟩
  else if c = '~' then
    if peek buf p = '&' then some ⟨TokenKind.TildeAnd, TokenData.none_, [], (p + 1), mode⟩
    else if peek buf p = '|' then some ⟨TokenKind.TildeOr, TokenData.none_, [], (p + 1), mode⟩
    else if peek buf p = '^' then some ⟨TokenKind.TildeXor, TokenData.none_, [], (p + 1), mode⟩
    else some ⟨TokenKind.Tilde, TokenData.none_, [], p, mode⟩
  else if isASCII c then
    some ⟨TokenKind.Unknown, TokenData.ident (lexeme buf pos p) IdentifierType.Unknown,
          [DiagCode.NonPrintableChar], p, mode⟩
  else
    let e := p + utf8SeqBytes c
    some ⟨TokenKind.Unknown, TokenData.ident (lexeme buf pos e) IdentifierType.Unknown,
          [DiagCode.UTF8Char], e, mode⟩

/-- Result of one call to `Lexer::lex`. -/
structure LexRes where
  tok : Token
  pos : Nat
  mode : LexingMode
  diags : List DiagCode
  deriving DecidableEq, Repr

/-- `Lexer::lex`: gather leading trivia, then lex one token.  The
boolean returned by `lexTrivia` is discarded — the code that would
consult it (and produce preprocessor-driven tokens) is commented out in
the source. -/
def lex (fuel : Nat) (buf : List Char) (pos : Nat) (mode : LexingMode) : Option LexRes := do
  let t ← lexTrivia fuel buf pos mode [] []
  let r ← lexToken fuel buf t.pos t.mode
  some ⟨⟨r.kind, r.data, t.trivia⟩, r.pos, r.mode, t.diags ++ r.diags⟩

/-- Pull tokens until `EndOfFile`, as the lexer's caller does, starting
from the given state; returns the token list (including the final
`EndOfFile`), the final mode, and all diagnostics in order. -/
def tokens (fuel : Nat) (buf : List Char) (pos : Nat) (mode : LexingMode)
    (acc : List Token) (diags : List DiagCode) :
    Option (List Token × LexingMode × List DiagCode) :=
  match fuel with
  | 0 => none
  | fuel + 1 => do
    let r ← lex fuel buf pos mode
    if r.tok.kind = TokenKind.EndOfFile then
      some (acc ++ [r.tok], r.mode, diags ++ r.diags)
    else tokens fuel buf r.pos r.mode (acc ++ [r.tok]) (diags ++ r.diags)

end Slang

namespace Slang

/-! ## Spec-side declarative descriptions -/

/-- Shorthand for writing concrete buffers. -/
def S (s : String) : List Char := s.toList

/-- The decimal value of a digit string. -/
def decValue (ds : List Char) : Nat :=
  ds.foldl (fun a c => a * 10 + getDigitValue c) 0

/-- The run of characters `scanUnsignedNumber` consumes from a
position: the longest prefix of decimal digits and underscores. -/
def scanChars (buf : List Char) (pos : Nat) : List Char :=
  (buf.drop pos).takeWhile (fun c => isDecimalDigit c || c = '_')

/-- The digits among the characters `scanUnsignedNumber` consumes. -/
def scanDigits (buf : List Char) (pos : Nat) : List Char :=
  (scanChars buf pos).filter (fun c => isDecimalDigit c)

/-- Length of the leading run of `'0'` characters at a position. -/
def zeroRun (buf : List Char) (pos : Nat) : Nat :=
  ((buf.drop pos).takeWhile (fun c => c = '0')).length

/-- Length of the run of horizontal whitespace at a position. -/
def wsRun (buf : List Char) (pos : Nat) : Nat :=
  ((buf.drop pos).takeWhile isHorizontalWhitespace).length

/-! ## Claim C1 -/

/-- C1: refuted as stated; the code is the slip.  In Directive mode a
backslash immediately followed by a newline is not consumed as trivia:
the test `!isNewline(peek())` examines the backslash itself (nothing
was consumed since `switch (peek())`), so `lexTrivia` stops and returns
false, the backslash is then lexed by `lexEscapeSequence` into an
`Unknown` token diagnosing `EscapedWhitespace`, and the newline still
terminates directive trivia scanning afterwards.  On the directive body
`` `define X \<newline>1 `` the stream is Directive, Identifier,
Unknown(EscapedWhitespace), IntegerLiteral, EndOfFile - the escape
claimed by the spec (and by the comment in the source) never happens. -/
theorem c1_backslash_newline_escape_dead :
    lexTrivia 10 ['\\', '\n'] 0 LexingMode.Directive [] [] =
      some ⟨false, 0, LexingMode.Directive, [], []⟩ ∧
    lexToken 10 ['\\', '\n'] 0 LexingMode.Directive =
      some ⟨TokenKind.Unknown, TokenData.ident ['\\'] IdentifierType.Unknown,
            [DiagCode.EscapedWhitespace], 1, LexingMode.Directive⟩ ∧
    (tokens 100 (S "`define X \\\n1") 0 LexingMode.Normal [] []).map
        (fun r => (r.1.map Token.kind, r.2.2)) =
      some ([TokenKind.Directive, TokenKind.Identifier, TokenKind.Unknown,
             TokenKind.IntegerLiteral, TokenKind.EndOfFile],
            [DiagCode.EscapedWhitespace]) := by
  refine ⟨by decide, by decide, by decide⟩

/-! ## Claim C2 -/

/-- Helper for C2: from the embedded NUL inside the string literal the
scanner never moves again, for any fuel. -/
theorem lexStringLiteral_null_stuck :
    ∀ (fuel : Nat) (acc : List Char) (diags : List DiagCode),
      lexStringLiteral fuel ['"', 'a', '\x00', 'b', '"'] 0 2 acc diags = none := by
  intro fuel
  induction fuel with
  | zero => intro acc diags; rfl
  | succ f ih => intro acc diags; exact ih acc (diags ++ [DiagCode.EmbeddedNull])

/-- Helper for C2: from the embedded NUL inside the block comment the
scanner never moves again, for any fuel. -/
theorem scanBlockComment_null_stuck :
    ∀ (fuel : Nat) (diags : List DiagCode),
      scanBlockComment fuel ['/', '*', '\x00', '*', '/'] 2 LexingMode.Normal false diags
        = none := by
  intro fuel
  induction fuel with
  | zero => intro diags; rfl
  | succ f ih => intro diags; exact ih (diags ++ [DiagCode.EmbeddedNull])

/-- C2: refuted as stated; the code is the slip.  An embedded NUL (one
strictly before the end sentinel) inside a string literal or a block
comment is diagnosed `EmbeddedNull` but the cursor is never advanced
("otherwise just error and ignore" in the source; the line-comment
scanner by contrast does advance), so the scanning loop repeats the
same state forever: for every fuel the model returns `none` on the
buffers `"a<NUL>b"` (string case, scanning from inside the literal) and
`/*<NUL>*/` (block-comment case, scanning from inside the comment). -/
theorem c2_embedded_null_loops_forever :
    (∀ fuel : Nat,
      lexStringLiteral fuel ['"', 'a', '\x00', 'b', '"'] 0 1 [] [] = none) ∧
    (∀ fuel : Nat,
      scanBlockComment fuel ['/', '*', '\x00', '*', '/'] 2 LexingMode.Normal false []
        = none) := by
  constructor
  · intro fuel
    match fuel with
    | 0 => rfl
    | f + 1 => exact lexStringLiteral_null_stuck f ['a'] []
  · intro fuel
    exact scanBlockComment_null_stuck fuel []

/-! ## Claim C3 -/

/-- C3: refuted as stated; the code is the slip.  `lexTrivia` does
return true ("an EndOfDirective token [is required] to be issued", per
the comment in the source) at the first unescaped newline in directive
mode, but `lex()` discards that boolean (the consuming code is
commented out): no `EndOfDirective` token is ever produced and the mode
is not reset to Normal by the trivia-newline case.  On
`` `define X<newline>+ `` the stream is Directive, Identifier, Plus,
EndOfFile with the final mode still Directive. -/
theorem c3_no_end_of_directive :
    tokens 100 (S "`define X\n+") 0 LexingMode.Normal [] [] =
      some ([⟨TokenKind.Directive,
              TokenData.directive (S "`define") TriviaKind.OtherDirective, []⟩,
             ⟨TokenKind.Identifier, TokenData.ident ['X'] IdentifierType.Normal,
              [TriviaKind.Whitespace]⟩,
             ⟨TokenKind.Plus, TokenData.none_, [TriviaKind.EndOfLine]⟩,
             ⟨TokenKind.EndOfFile, TokenData.none_, []⟩],
            LexingMode.Directive, []) ∧
    (∀ t, t ∈ [TokenKind.Directive, TokenKind.Identifier, TokenKind.Plus,
               TokenKind.EndOfFile] → t ≠ TokenKind.EndOfDirective) ∧
    lexTrivia 100 (S "`define X\n+") 9 LexingMode.Directive [] [] =
      some ⟨true, 10, LexingMode.Directive, [TriviaKind.EndOfLine], []⟩ := by
  refine ⟨by decide, by decide, by decide⟩

/-! ## Claim C8 -/

/-- C8: confirmed.  Maximal munch for the left-shift family: `<<<=`
lexes as the single token `TripleLeftShiftEqual`, `<<=` as the single
`LeftShiftEqual`, and `<<` as the single `LeftShift`, each followed
only by `EndOfFile`. -/
theorem c8_shift_maximal_munch :
    tokens 100 (S "<<<=") 0 LexingMode.Normal [] [] =
      some ([⟨TokenKind.TripleLeftShiftEqual, TokenData.none_, []⟩,
             ⟨TokenKind.EndOfFile, TokenData.none_, []⟩], LexingMode.Normal, []) ∧
    tokens 100 (S "<<=") 0 LexingMode.Normal [] [] =
      some ([⟨TokenKind.LeftShiftEqual, TokenData.none_, []⟩,
             ⟨TokenKind.EndOfFile, TokenData.none_, []⟩], LexingMode.Normal, []) ∧
    tokens 100 (S "<<") 0 LexingMode.Normal [] [] =
      some ([⟨TokenKind.LeftShift, TokenData.none_, []⟩,
             ⟨TokenKind.EndOfFile, TokenData.none_, []⟩], LexingMode.Normal, []) := by
  refine ⟨by decide, by decide, by decide⟩

end Slang

namespace Slang

/-! ## Counterexamples for C4, C5, C9 -/

/-- C4 counterexample.  The claim fails on the plain decimal literal
`0_00000000000000000005` (not followed by apostrophe, decimal point or
exponent letter): the leading-zero skip stops at the underscore, so the
nineteen zeros after it are scanned as digits, the 18-digit accumulation
cap is hit before the final `5`, and the code stores 0 with no
diagnostic - whereas min(parsed decimal value, INT32_MAX) = 5. -/
theorem c4_counterexample :
    tokens 100 (S "0_00000000000000000005") 0 LexingMode.Normal [] [] =
      some ([⟨TokenKind.IntegerLiteral, TokenData.intLit 0, []⟩,
             ⟨TokenKind.EndOfFile, TokenData.none_, []⟩], LexingMode.Normal, []) ∧
    decValue ((S "0_00000000000000000005").filter (fun c => isDecimalDigit c)) = 5 ∧
    (0 : ℤ) ≠ ((min 5 2147483647 : Nat) : ℤ) := by
  refine ⟨by decide, by decide, by decide⟩

/-- C5 counterexample.  The claim fails on `1e4294967296`: the scanned
exponent value is 4294967296 = 2^32, and composing with that exponent
(clamped to 511) is non-finite, so the claim requires
`RealExponentTooLarge`; but the code first converts the `uint64_t`
exponent to a 32-bit `int`, which wraps 2^32 to 0, so the stored value
is 1.0 and no diagnostic is produced. -/
theorem c5_counterexample :
    tokens 100 (S "1e4294967296") 0 LexingMode.Normal [] [] =
      some ([⟨TokenKind.RealLiteral, TokenData.realLit (f64ofNat 1), []⟩,
             ⟨TokenKind.EndOfFile, TokenData.none_, []⟩], LexingMode.Normal, []) ∧
    (composeDouble (f64ofNat 1) 4294967296).2 = false ∧
    isfinite (f64ofNat 1) = true := by
  refine ⟨by decide, by decide, by decide⟩

/-- C9 counterexample.  The claim identifies the asserted precondition
`!reallyAtEnd()` with "the cursor is not past the end sentinel", and
asserts that only calls after `EndOfFile` violate it.  On the buffer
`a` the cursor position 1 is exactly at (not past) the end sentinel and
is the position from which `EndOfFile` is produced, yet `reallyAtEnd`
is already true there: the assertion is violated by the very call that
yields `EndOfFile`, not only by calls after it. -/
theorem c9_counterexample :
    reallyAtEnd ['a'] 1 = true ∧
    1 ≤ List.length ['a'] ∧
    lex 10 ['a'] 1 LexingMode.Normal =
      some ⟨⟨TokenKind.EndOfFile, TokenData.none_, []⟩, 2, LexingMode.Normal, []⟩ := by
  refine ⟨by decide, by decide, by decide⟩

end Slang

namespace Slang

/-! ## Characterization lemmas for the scanning loops -/

theorem drop_step (buf : List Char) (pos : Nat) :
    (buf.drop pos = [] ∧ peek buf pos = '\x00') ∨
    ∃ c rest, buf.drop pos = c :: rest ∧ peek buf pos = c ∧
      buf.drop (pos + 1) = rest := by
  cases h : buf.drop pos with
  | nil =>
    left
    refine ⟨rfl, ?_⟩
    have hl : buf.length ≤ pos := by
      by_contra hlt
      push_neg at hlt
      have := List.drop_eq_getElem_cons hlt
      rw [h] at this
      exact List.noConfusion this
    simp [peek, List.getD, List.getElem?_eq_none hl]
  | cons c rest =>
    right
    have hlt : pos < buf.length := by
      by_contra hge
      push_neg at hge
      rw [List.drop_eq_nil_of_le hge] at h
      exact List.noConfusion h
    have hd := List.drop_eq_getElem_cons (l := buf) hlt
    rw [h] at hd
    obtain ⟨hc, hrest⟩ := List.cons.inj hd
    refine ⟨c, rest, rfl, ?_, hrest.symm⟩
    rw [peek, List.getD_eq_getElem buf '\x00' hlt, hc]

theorem skipLeadingZeros_spec (buf : List Char) :
    ∀ (fuel pos : Nat), (buf.drop pos).length < fuel →
      skipLeadingZeros fuel buf pos = some (pos + zeroRun buf pos) := by
  intro fuel
  induction fuel with
  | zero => intro pos h; exact absurd h (Nat.not_lt_zero _)
  | succ f ih =>
    intro pos h
    rcases drop_step buf pos with ⟨hnil, hpk⟩ | ⟨c, rest, hcons, hpk, hrest⟩
    · have hz : zeroRun buf pos = 0 := by simp [zeroRun, hnil]
      simp [skipLeadingZeros, hpk, hz]
    · by_cases hc : c = '0'
      · have hlen : (buf.drop (pos + 1)).length < f := by
          rw [hrest]
          have : (buf.drop pos).length = rest.length + 1 := by rw [hcons]; rfl
          omega
        have hz : zeroRun buf pos = zeroRun buf (pos + 1) + 1 := by
          simp [zeroRun, hcons, List.takeWhile_cons, hc, hrest]
        rw [skipLeadingZeros, if_pos (hpk.trans hc), ih (pos + 1) hlen, hz]
        congr 1
        omega
      · have hz : zeroRun buf pos = 0 := by
          simp [zeroRun, hcons, List.takeWhile_cons, hc]
        rw [skipLeadingZeros, if_neg (by rw [hpk]; exact hc), hz]
        simp

theorem findNextNonWhitespace_spec (buf : List Char) :
    ∀ (fuel pos : Nat), (buf.drop pos).length < fuel →
      findNextNonWhitespace fuel buf pos = some (wsRun buf pos) := by
  intro fuel
  induction fuel with
  | zero => intro pos h; exact absurd h (Nat.not_lt_zero _)
  | succ f ih =>
    intro pos h
    rcases drop_step buf pos with ⟨hnil, hpk⟩ | ⟨c, rest, hcons, hpk, hrest⟩
    · have hz : wsRun buf pos = 0 := by simp [wsRun, hnil]
      rw [findNextNonWhitespace, if_neg (by rw [hpk]; decide), hz]
    · by_cases hc : isHorizontalWhitespace c = true
      · have hlen : (buf.drop (pos + 1)).length < f := by
          rw [hrest]
          have : (buf.drop pos).length = rest.length + 1 := by rw [hcons]; rfl
          omega
        have hz : wsRun buf pos = wsRun buf (pos + 1) + 1 := by
          simp [wsRun, hcons, List.takeWhile_cons, hc, hrest]
        rw [findNextNonWhitespace, if_pos (by rw [hpk]; exact hc),
          ih (pos + 1) hlen]
        simp [hz]
      · have hz : wsRun buf pos = 0 := by
          simp [wsRun, hcons, List.takeWhile_cons, hc]
        rw [findNextNonWhitespace, if_neg (by rw [hpk]; exact hc), hz]

/-- Declarative counterpart of `scanUnsignedNumber`'s accumulation:
fold the scanned digits, counting every digit but accumulating only the
first 18. -/
def accum (v d : Nat) : List Char → Nat × Nat
  | [] => (v, d)
  | c :: cs => accum (if d < 18 then v * 10 + getDigitValue c else v) (d + 1) cs

theorem scanUnsignedNumber_spec (buf : List Char) :
    ∀ (fuel pos v d : Nat), (buf.drop pos).length < fuel →
      scanUnsignedNumber fuel buf pos v d =
        some ((accum v d (scanDigits buf pos)).1,
              (accum v d (scanDigits buf pos)).2,
              pos + (scanChars buf pos).length) := by
  intro fuel
  induction fuel with
  | zero => intro pos v d h; exact absurd h (Nat.not_lt_zero _)
  | succ f ih =>
    intro pos v d h
    rcases drop_step buf pos with ⟨hnil, hpk⟩ | ⟨c, rest, hcons, hpk, hrest⟩
    · have hsc : scanChars buf pos = [] := by simp [scanChars, hnil]
      rw [scanUnsignedNumber, if_neg (by rw [hpk]; decide),
        if_neg (by rw [hpk]; decide)]
      simp [scanDigits, hsc, accum]
    · have hlen : (buf.drop (pos + 1)).length < f := by
        rw [hrest]
        have : (buf.drop pos).length = rest.length + 1 := by rw [hcons]; rfl
        omega
      by_cases hdig : isDecimalDigit c = true
      · have hsc : scanChars buf pos = c :: scanChars buf (pos + 1) := by
          simp [scanChars, hcons, List.takeWhile_cons, hdig, hrest]
        have hsd : scanDigits buf pos = c :: scanDigits buf (pos + 1) := by
          simp [scanDigits, hsc, List.filter_cons, hdig]
        rw [scanUnsignedNumber, if_pos (by rw [hpk]; exact hdig),
          ih (pos + 1) _ _ hlen, hsd, hsc]
        simp [accum, hpk]
        omega
      · by_cases hund : c = '_'
        · have hsc : scanChars buf pos = c :: scanChars buf (pos + 1) := by
            simp [scanChars, hcons, List.takeWhile_cons, hund, hrest]
          have hsd : scanDigits buf pos = scanDigits buf (pos + 1) := by
            simp [scanDigits, hsc, List.filter_cons, hdig]
          rw [scanUnsignedNumber, if_neg (by rw [hpk]; exact hdig),
            if_pos (by rw [hpk]; exact hund), ih (pos + 1) _ _ hlen, hsd, hsc]
          simp
          omega
        · have hsc : scanChars buf pos = [] := by
            simp [scanChars, hcons, List.takeWhile_cons, hdig, hund]
          rw [scanUnsignedNumber, if_neg (by rw [hpk]; exact hdig),
            if_neg (by rw [hpk]; exact hund)]
          simp [scanDigits, hsc, accum]

theorem accum_snd (ds : List Char) :
    ∀ v d, (accum v d ds).2 = d + ds.length := by
  induction ds with
  | nil => intro v d; simp [accum]
  | cons c cs ih => intro v d; rw [accum, ih]; simp; omega

theorem accum_fst_ge (ds : List Char) :
    ∀ v d, 18 ≤ d → (accum v d ds).1 = v := by
  induction ds with
  | nil => intro v d _; rfl
  | cons c cs ih =>
    intro v d hd
    rw [accum, if_neg (by omega)]
    exact ih v (d + 1) (by omega)

theorem accum_fst (ds : List Char) :
    ∀ v d, d ≤ 18 →
      (accum v d ds).1 =
        (ds.take (18 - d)).foldl (fun a c => a * 10 + getDigitValue c) v := by
  induction ds with
  | nil => intro v d _; simp [accum]
  | cons c cs ih =>
    intro v d hd
    by_cases hlt : d < 18
    · rw [accum, if_pos hlt, ih _ (d + 1) (by omega)]
      have h18 : 18 - d = (18 - (d + 1)) + 1 := by omega
      rw [h18, List.take_succ_cons, List.foldl_cons]
    · have hd18 : d = 18 := by omega
      rw [accum, if_neg hlt, accum_fst_ge, hd18]
      · simp
      · omega

theorem accum_fst_zero (ds : List Char) :
    (accum 0 0 ds).1 = decValue (ds.take 18) := by
  rw [accum_fst ds 0 0 (by omega), decValue]

end Slang

namespace Slang

/-! ## Claim C4 (amended) -/

/-- C4 amended: for every plain decimal integer literal (one not
followed by an apostrophe - also not across horizontal whitespace - a
decimal point, or an exponent letter), the stored signed 32-bit value
equals min(v, INT32_MAX) and `SignedLiteralTooLarge` is emitted iff
v > INT32_MAX, where v is the value of the first 18 digits scanned
after the leading-zero skip (digit counting continues past 18 while
accumulation stops); v equals the parsed decimal value whenever at most
18 digits are scanned. -/
theorem c4_first18_clamp (buf : List Char) (pos fuel z p2 : Nat)
    (ds : List Char) (v : Nat)
    (hf : buf.length < fuel)
    (hz : z = zeroRun buf pos)
    (hds : ds = scanDigits buf (pos + z))
    (hp2 : p2 = pos + z + (scanChars buf (pos + z)).length)
    (hv : v = decValue (ds.take 18))
    (hvec : ¬(0 < wsRun buf p2 ∧ peek buf (p2 + wsRun buf p2) = '\''))
    (hq : peek buf p2 ≠ '\'') (hdot : peek buf p2 ≠ '.')
    (he : peek buf p2 ≠ 'e') (hE : peek buf p2 ≠ 'E') :
    lexNumericLiteral fuel buf pos =
      some ⟨TokenData.intLit (min v 2147483647),
            if 2147483647 < v then [DiagCode.SignedLiteralTooLarge] else [], p2⟩ ∧
    (ds.length ≤ 18 → v = decValue ds) := by
  have hdl : ∀ q : Nat, (buf.drop q).length < fuel := by
    intro q; rw [List.length_drop]; omega
  have h1 := skipLeadingZeros_spec buf fuel pos (hdl pos)
  have h2 := scanUnsignedNumber_spec buf fuel (pos + z) 0 0 (hdl (pos + z))
  have h3 := findNextNonWhitespace_spec buf fuel p2 (hdl p2)
  constructor
  · rw [lexNumericLiteral, h1, ← hz]
    simp only [Option.bind_eq_bind, Option.some_bind, h2, h3, ← hp2]
    have hcond : ¬((decide (0 < wsRun buf p2) &&
        decide (peek buf (p2 + wsRun buf p2) = '\'')) = true) := by
      simp only [Bool.and_eq_true, decide_eq_true_eq]
      exact hvec
    rw [if_neg hcond, if_neg hq, if_neg hdot,
      if_neg (by simp only [Bool.or_eq_true, decide_eq_true_eq]; tauto)]
    rw [accum_fst_zero, ← hds, ← hv]
    by_cases hgt : 2147483647 < v
    · rw [if_pos hgt, if_pos hgt]
      have h5 : ((v : ℤ) ⊓ 2147483647) = 2147483647 := by omega
      rw [h5]
    · rw [if_neg hgt, if_neg hgt]
      have h5 : ((v : ℤ) ⊓ 2147483647) = (v : ℤ) := by omega
      rw [h5]
  · intro hlen
    rw [hv, List.take_of_length_le hlen]

/-- Witness for C4: `2147483648` stores `INT32_MAX` and diagnoses
`SignedLiteralTooLarge`. -/
theorem c4_first18_clamp_witness :
    lexNumericLiteral 100 (S "2147483648") 0 =
      some ⟨TokenData.intLit 2147483647, [DiagCode.SignedLiteralTooLarge], 10⟩ := by
  have h := (c4_first18_clamp (S "2147483648") 0 100 0 10 (S "2147483648") 2147483648
    (by decide) (by decide) (by decide) (by decide) (by decide)
    (by decide) (by decide) (by decide) (by decide) (by decide)).1
  simpa using h

end Slang

namespace Slang

/-! ## Claim C5 (amended) -/

/-- C5 amended: for every real literal the stored double is the scanned
mantissa value composed with 10^e by binary-decomposition
multiplication over the power-of-ten table (exponent magnitude clamped
to 511), and `RealExponentTooLarge` is diagnosed exactly when the
composed result is non-finite - where e is (decPoint - min(digits, 18))
plus or minus the scanned exponent value reduced to a signed 32-bit
int, as by the conversion `int(expVal)` (not the unreduced scanned
value); `1.5e2` yields value 150.0 and `1e500` yields
`RealExponentTooLarge`. -/
theorem c5_real_compose (buf : List Char) (pos fuel : Nat)
    (value decPoint digits : Nat) (exponent : Bool)
    (p2 p3 pEnd : Nat) (sc : Char) (hasDigs : Bool) (expVal : Nat) (e : ℤ)
    (hf : buf.length < fuel)
    (hp2 : p2 = pos + 1 + zeroRun buf (pos + 1))
    (hsc : sc = peek buf p2)
    (hp3 : p3 = if sc = '+' || sc = '-' then p2 + 1 else p2)
    (hhd : hasDigs = isDecimalDigit (peek buf p3))
    (hev : expVal = if hasDigs then decValue ((scanDigits buf p3).take 18) else 0)
    (hpe : pEnd = if hasDigs then p3 + (scanChars buf p3).length else p3)
    (he : e = if exponent then
            (if sc = '-' then wrapInt32 ((decPoint : ℤ) - min digits 18 - wrapInt32 expVal)
             else wrapInt32 ((decPoint : ℤ) - min digits 18 + wrapInt32 expVal))
          else wrapInt32 ((decPoint : ℤ) - min digits 18 + wrapInt32 0)) :
    lexRealLiteral fuel buf pos value decPoint digits exponent =
      some ⟨TokenData.realLit (composeDouble (f64ofNat value) e).1,
            (if exponent && !hasDigs then [DiagCode.MissingExponentDigits] else []) ++
            (if (composeDouble (f64ofNat value) e).2 then []
             else [DiagCode.RealExponentTooLarge]),
            if exponent then pEnd else pos⟩ ∧
    tokens 100 (S "1.5e2") 0 LexingMode.Normal [] [] =
      some ([⟨TokenKind.RealLiteral, TokenData.realLit (f64ofNat 150), []⟩,
             ⟨TokenKind.EndOfFile, TokenData.none_, []⟩], LexingMode.Normal, []) ∧
    tokens 100 (S "1e500") 0 LexingMode.Normal [] [] =
      some ([⟨TokenKind.RealLiteral, TokenData.realLit none, []⟩,
             ⟨TokenKind.EndOfFile, TokenData.none_, []⟩], LexingMode.Normal,
            [DiagCode.RealExponentTooLarge]) := by
  refine ⟨?_, by decide, by decide⟩
  have hdl : ∀ q : Nat, (buf.drop q).length < fuel := by
    intro q; rw [List.length_drop]; omega
  have h1 := skipLeadingZeros_spec buf fuel (pos + 1) (hdl (pos + 1))
  subst hsc hp2 hp3 hhd hev hpe he
  cases exponent with
  | false => simp [lexRealLiteral]
  | true =>
    simp only [lexRealLiteral, h1, Option.bind_eq_bind, Option.some_bind]
    by_cases hplus : peek buf (pos + 1 + zeroRun buf (pos + 1)) = '+'
    · cases hd : isDecimalDigit (peek buf (pos + 1 + zeroRun buf (pos + 1) + 1)) with
      | false => simp [hplus, hd]; split <;> rfl
      | true =>
        have h2 := scanUnsignedNumber_spec buf fuel
          (pos + 1 + zeroRun buf (pos + 1) + 1) 0 0 (hdl _)
        simp [hplus, hd, h2, accum_fst_zero]
    · by_cases hminus : peek buf (pos + 1 + zeroRun buf (pos + 1)) = '-'
      · cases hd : isDecimalDigit (peek buf (pos + 1 + zeroRun buf (pos + 1) + 1)) with
        | false => simp [hplus, hminus, hd]; split <;> rfl
        | true =>
          have h2 := scanUnsignedNumber_spec buf fuel
            (pos + 1 + zeroRun buf (pos + 1) + 1) 0 0 (hdl _)
          simp [hplus, hminus, hd, h2, accum_fst_zero]
      · cases hd : isDecimalDigit (peek buf (pos + 1 + zeroRun buf (pos + 1))) with
        | false => simp [hplus, hminus, hd]; split <;> rfl
        | true =>
          have h2 := scanUnsignedNumber_spec buf fuel
            (pos + 1 + zeroRun buf (pos + 1)) 0 0 (hdl _)
          simp [hplus, hminus, hd, h2, accum_fst_zero]

/-- Witness for C5: on `1.5e2` the composed exponent is 1 and the
stored value is 150.0. -/
theorem c5_real_compose_witness :
    lexRealLiteral 100 (S "1.5e2") 3 15 1 2 true =
      some ⟨TokenData.realLit (composeDouble (f64ofNat 15) 1).1, [], 5⟩ := by
  have h := (c5_real_compose (S "1.5e2") 3 100 15 1 2 true 4 4 5 '2' true 2 1
    (by decide) (by decide) (by decide) (by decide) (by decide) (by decide)
    (by decide) (by decide)).1
  simpa using h

end Slang

namespace Slang

/-! ## Claim C6 -/

theorem peek_eq_null_of_le {buf : List Char} {pos : Nat}
    (h : buf.length ≤ pos) : peek buf pos = '\x00' := by
  simp [peek, List.getD, List.getElem?_eq_none h]

theorem peek_ne_null_lt {buf : List Char} {pos : Nat}
    (h : peek buf pos ≠ '\x00') : pos < buf.length := by
  by_contra hge
  push_neg at hge
  exact h (peek_eq_null_of_le hge)

theorem drop_len_lt {buf : List Char} {pos f : Nat}
    (hp : pos < buf.length) (h : (buf.drop pos).length < f + 1) :
    (buf.drop (pos + 1)).length < f := by
  simp only [List.length_drop] at *
  omega

theorem baseIsDigit_null (base : VectorBase) : baseIsDigit base '\x00' = false := by
  cases base <;> rfl

theorem vectorDigitsLoop_shape (buf : List Char) (st : VecState) (base : VectorBase) :
    ∀ (fuel pos : Nat) (acc : List LogicDigit), (buf.drop pos).length < fuel →
      ∃ ds pos', vectorDigitsLoop fuel buf pos st base acc =
        some ⟨toVector st base ds, [], pos'⟩ := by
  intro fuel
  induction fuel with
  | zero => intro pos acc h; exact absurd h (Nat.not_lt_zero _)
  | succ f ih =>
    intro pos acc h
    rw [vectorDigitsLoop]
    by_cases h1 : peek buf pos = '_'
    · rw [if_pos h1]
      exact ih (pos + 1) acc
        (drop_len_lt (peek_ne_null_lt (by rw [h1]; decide)) h)
    · rw [if_neg h1]
      by_cases h2 : (peek buf pos = 'z' || peek buf pos = 'Z' || peek buf pos = '?') = true
      · rw [if_pos h2]
        have hne : peek buf pos ≠ '\x00' := by
          simp only [Bool.or_eq_true, decide_eq_true_eq] at h2
          rcases h2 with h2 | h2
          · rcases h2 with h2 | h2 <;> (rw [h2]; decide)
          · rw [h2]; decide
        exact ih (pos + 1) _ (drop_len_lt (peek_ne_null_lt hne) h)
      · rw [if_neg h2]
        by_cases h3 : (peek buf pos = 'x' || peek buf pos = 'X') = true
        · rw [if_pos h3]
          have hne : peek buf pos ≠ '\x00' := by
            simp only [Bool.or_eq_true, decide_eq_true_eq] at h3
            rcases h3 with h3 | h3 <;> (rw [h3]; decide)
          exact ih (pos + 1) _ (drop_len_lt (peek_ne_null_lt hne) h)
        · rw [if_neg h3]
          by_cases h4 : baseIsDigit base (peek buf pos) = true
          · rw [if_pos h4]
            have hne : peek buf pos ≠ '\x00' := by
              intro hc
              rw [hc, baseIsDigit_null] at h4
              exact Bool.false_ne_true h4
            exact ih (pos + 1) _ (drop_len_lt (peek_ne_null_lt hne) h)
          · rw [if_neg h4]
            exact ⟨acc, pos, rfl⟩

theorem lexVectorDigits_shape (buf : List Char) (st : VecState) (base : VectorBase)
    (fuel pos : Nat) (hf : buf.length < fuel) :
    (∃ ds pos', lexVectorDigits fuel buf pos st base =
      some ⟨toVector st base ds, [], pos'⟩) ∨
    lexVectorDigits fuel buf pos st base =
      some ⟨TokenData.intLit 0, [DiagCode.MissingVectorDigits], pos⟩ := by
  have hdl : ∀ q : Nat, (buf.drop q).length < fuel := by
    intro q; rw [List.length_drop]; omega
  rw [lexVectorDigits, findNextNonWhitespace_spec buf fuel pos (hdl pos)]
  simp only [Option.bind_eq_bind, Option.some_bind]
  by_cases hmiss :
      (!baseIsDigit base (peek buf (pos + wsRun buf pos)) &&
       !isLogicDigit (peek buf (pos + wsRun buf pos))) = true
  · right
    rw [if_pos hmiss]
  · left
    rw [if_neg hmiss]
    exact vectorDigitsLoop_shape buf st base fuel (pos + wsRun buf pos) []
      (hdl (pos + wsRun buf pos))

/-- The signed flag of a sized vector literal: an `s` or `S` right
after the apostrophe. -/
def signFlag (buf : List Char) (pos : Nat) : Bool :=
  peek buf pos = 's' || peek buf pos = 'S'

/-- Position of the base letter of a sized vector literal (just after
the apostrophe and the optional sign letter). -/
def afterSign (buf : List Char) (pos : Nat) : Nat :=
  if signFlag buf pos then pos + 1 else pos

/-- The base selected by a base letter, if any. -/
def baseOfChar (c : Char) : Option VectorBase :=
  if c = 'd' || c = 'D' then some VectorBase.decimal
  else if c = 'o' || c = 'O' then some VectorBase.octal
  else if c = 'h' || c = 'H' then some VectorBase.hex
  else if c = 'b' || c = 'B' then some VectorBase.binary
  else none

/-- C6: confirmed.  For every sized vector literal: after the
apostrophe an optional `s`/`S` sets the signed flag; one of
`d D o O h H b B` selects the base, and the resulting vector carries
the clamped size min(size64, UINT32_MAX) (so size 0 stays 0 after the
`IntegerSizeZero` diagnosis and an oversized size clamps to UINT32_MAX
with `IntegerSizeTooLarge`); a missing base letter yields
`MissingVectorBase`.  The size diagnostics are exactly
`IntegerSizeZero` iff the size is 0 and `IntegerSizeTooLarge` iff it
exceeds 2^32 - 1.  The input `4'sb10xz` yields an `IntegerLiteral`
with size 4, signed, binary base and digits 1, 0, x, z. -/
theorem c6_sized_vector (buf : List Char) (pos fuel size64 : Nat)
    (sd : List DiagCode)
    (hf : buf.length < fuel)
    (hsd : sd = (if size64 = 0 then [DiagCode.IntegerSizeZero]
                 else if 4294967295 < size64 then [DiagCode.IntegerSizeTooLarge]
                 else [])) :
    ((baseOfChar (peek buf (afterSign buf pos)) = none →
        lexVectorLiteral fuel buf pos size64 =
          some ⟨TokenData.intLit 0, sd ++ [DiagCode.MissingVectorBase],
                afterSign buf pos⟩) ∧
     (∀ b, baseOfChar (peek buf (afterSign buf pos)) = some b →
        (∃ ds pos', lexVectorLiteral fuel buf pos size64 =
            some ⟨TokenData.vecLit (min size64 4294967295) (signFlag buf pos) b ds,
                  sd, pos'⟩) ∨
        lexVectorLiteral fuel buf pos size64 =
          some ⟨TokenData.intLit 0, sd ++ [DiagCode.MissingVectorDigits],
                afterSign buf pos + 1⟩)) ∧
    tokens 100 (S "4'sb10xz") 0 LexingMode.Normal [] [] =
      some ([⟨TokenKind.IntegerLiteral,
              TokenData.vecLit 4 true VectorBase.binary
                [LogicDigit.val 1, LogicDigit.val 0, LogicDigit.x, LogicDigit.z], []⟩,
             ⟨TokenKind.EndOfFile, TokenData.none_, []⟩], LexingMode.Normal, []) := by
  have hmin : (if size64 = 0 then 0
               else if size64 > 4294967295 then 4294967295
               else size64) = min size64 4294967295 := by
    split_ifs <;> omega
  refine ⟨⟨?_, ?_⟩, by decide⟩
  · intro hb
    rw [baseOfChar] at hb
    split_ifs at hb with h1 h2 h3 h4
    simp only [Bool.or_eq_true, decide_eq_true_eq] at h1 h2 h3 h4
    rw [lexVectorLiteral]
    by_cases hs : (peek buf pos = 's' || peek buf pos = 'S') = true
    · have hA : afterSign buf pos = pos + 1 := by rw [afterSign, signFlag, if_pos hs]
      rw [hA] at h1 h2 h3 h4 ⊢
      simp [hs, h1, h2, h3, h4, hsd]
    · have hA : afterSign buf pos = pos := by rw [afterSign, signFlag, if_neg hs]
      rw [hA] at h1 h2 h3 h4 ⊢
      simp [hs, h1, h2, h3, h4, hsd]
  · intro b hb
    rw [baseOfChar] at hb
    split_ifs at hb with h1 h2 h3 h4
    · simp only [Bool.or_eq_true, decide_eq_true_eq] at h1
      injection hb with hbb
      subst hbb
      rw [lexVectorLiteral]
      by_cases hs : (peek buf pos = 's' || peek buf pos = 'S') = true
      · have hA : afterSign buf pos = pos + 1 := by rw [afterSign, signFlag, if_pos hs]
        rw [hA] at h1 ⊢
        rcases lexVectorDigits_shape buf (some (min size64 4294967295, true))
            VectorBase.decimal fuel (pos + 1 + 1) hf with ⟨ds, pos', heq⟩ | heq
        · exact Or.inl ⟨ds, pos', by simp [hs, h1, heq, toVector, hmin, hsd, signFlag]⟩
        · exact Or.inr (by simp [hs, h1, heq, hmin, hsd])
      · have hA : afterSign buf pos = pos := by rw [afterSign, signFlag, if_neg hs]
        rw [hA] at h1 ⊢
        rcases lexVectorDigits_shape buf (some (min size64 4294967295, false))
            VectorBase.decimal fuel (pos + 1) hf with ⟨ds, pos', heq⟩ | heq
        · exact Or.inl ⟨ds, pos', by simp [hs, h1, heq, toVector, hmin, hsd, signFlag]⟩
        · exact Or.inr (by simp [hs, h1, heq, hmin, hsd])
    · simp only [Bool.or_eq_true, decide_eq_true_eq] at h1 h2
      injection hb with hbb
      subst hbb
      rw [lexVectorLiteral]
      by_cases hs : (peek buf pos = 's' || peek buf pos = 'S') = true
      · have hA : afterSign buf pos = pos + 1 := by rw [afterSign, signFlag, if_pos hs]
        rw [hA] at h1 h2 ⊢
        rcases lexVectorDigits_shape buf (some (min size64 4294967295, true))
            VectorBase.octal fuel (pos + 1 + 1) hf with ⟨ds, pos', heq⟩ | heq
        · exact Or.inl ⟨ds, pos', by simp [hs, h1, h2, heq, toVector, hmin, hsd, signFlag]⟩
        · exact Or.inr (by simp [hs, h1, h2, heq, hmin, hsd])
      · have hA : afterSign buf pos = pos := by rw [afterSign, signFlag, if_neg hs]
        rw [hA] at h1 h2 ⊢
        rcases lexVectorDigits_shape buf (some (min size64 4294967295, false))
            VectorBase.octal fuel (pos + 1) hf with ⟨ds, pos', heq⟩ | heq
        · exact Or.inl ⟨ds, pos', by simp [hs, h1, h2, heq, toVector, hmin, hsd, signFlag]⟩
        · exact Or.inr (by simp [hs, h1, h2, heq, hmin, hsd])
    · simp only [Bool.or_eq_true, decide_eq_true_eq] at h1 h2 h3
      injection hb with hbb
      subst hbb
      rw [lexVectorLiteral]
      by_cases hs : (peek buf pos = 's' || peek buf pos = 'S') = true
      · have hA : afterSign buf pos = pos + 1 := by rw [afterSign, signFlag, if_pos hs]
        rw [hA] at h1 h2 h3 ⊢
        rcases lexVectorDigits_shape buf (some (min size64 4294967295, true))
            VectorBase.hex fuel (pos + 1 + 1) hf with ⟨ds, pos', heq⟩ | heq
        · exact Or.inl ⟨ds, pos', by simp [hs, h1, h2, h3, heq, toVector, hmin, hsd, signFlag]⟩
        · exact Or.inr (by simp [hs, h1, h2, h3, heq, hmin, hsd])
      · have hA : afterSign buf pos = pos := by rw [afterSign, signFlag, if_neg hs]
        rw [hA] at h1 h2 h3 ⊢
        rcases lexVectorDigits_shape buf (some (min size64 4294967295, false))
            VectorBase.hex fuel (pos + 1) hf with ⟨ds, pos', heq⟩ | heq
        · exact Or.inl ⟨ds, pos', by simp [hs, h1, h2, h3, heq, toVector, hmin, hsd, signFlag]⟩
        · exact Or.inr (by simp [hs, h1, h2, h3, heq, hmin, hsd])
    · simp only [Bool.or_eq_true, decide_eq_true_eq] at h1 h2 h3 h4
      injection hb with hbb
      subst hbb
      rw [lexVectorLiteral]
      by_cases hs : (peek buf pos = 's' || peek buf pos = 'S') = true
      · have hA : afterSign buf pos = pos + 1 := by rw [afterSign, signFlag, if_pos hs]
        rw [hA] at h1 h2 h3 h4 ⊢
        rcases lexVectorDigits_shape buf (some (min size64 4294967295, true))
            VectorBase.binary fuel (pos + 1 + 1) hf with ⟨ds, pos', heq⟩ | heq
        · exact Or.inl ⟨ds, pos',
            by simp [hs, h1, h2, h3, h4, heq, toVector, hmin, hsd, signFlag]⟩
        · exact Or.inr (by simp [hs, h1, h2, h3, h4, heq, hmin, hsd])
      · have hA : afterSign buf pos = pos := by rw [afterSign, signFlag, if_neg hs]
        rw [hA] at h1 h2 h3 h4 ⊢
        rcases lexVectorDigits_shape buf (some (min size64 4294967295, false))
            VectorBase.binary fuel (pos + 1) hf with ⟨ds, pos', heq⟩ | heq
        · exact Or.inl ⟨ds, pos',
            by simp [hs, h1, h2, h3, h4, heq, toVector, hmin, hsd, signFlag]⟩
        · exact Or.inr (by simp [hs, h1, h2, h3, h4, heq, hmin, hsd])

end Slang

namespace Slang

/-- Witness for C6: size 7000000000 exceeds UINT32_MAX; on `sb101` the
signed binary vector is produced with the clamped size and the
`IntegerSizeTooLarge` diagnostic. -/
theorem c6_sized_vector_witness :
    (S "sb101").length < 100 ∧
    ((∃ ds pos', lexVectorLiteral 100 (S "sb101") 0 7000000000 =
        some ⟨TokenData.vecLit (min 7000000000 4294967295) (signFlag (S "sb101") 0)
                VectorBase.binary ds,
              [DiagCode.IntegerSizeTooLarge], pos'⟩) ∨
      lexVectorLiteral 100 (S "sb101") 0 7000000000 =
        some ⟨TokenData.intLit 0,
              [DiagCode.IntegerSizeTooLarge] ++ [DiagCode.MissingVectorDigits],
              afterSign (S "sb101") 0 + 1⟩) :=
  ⟨by decide,
   (c6_sized_vector (S "sb101") 0 100 7000000000 [DiagCode.IntegerSizeTooLarge]
      (by decide) (by decide)).1.2 VectorBase.binary (by decide)⟩

/-! ## Claims C7 and C10 -/

/-- Reduction of `stringEscape` on an octal escape character to the
octal sub-branch. -/
theorem stringEscape_octal (buf : List Char) (pos : Nat)
    (hoct : isOctalDigit (peek buf (pos + 1)) = true) :
    stringEscape buf pos =
      (if isOctalDigit (peek buf (pos + 2)) then
        (if isOctalDigit (peek buf (pos + 3)) then
          (if (getDigitValue (peek buf (pos + 1)) * 8 + getDigitValue (peek buf (pos + 2))) * 8
                + getDigitValue (peek buf (pos + 3)) > 255 then
            ⟨[], [DiagCode.OctalEscapeCodeTooBig], pos + 4⟩
          else
            ⟨[Char.ofNat ((getDigitValue (peek buf (pos + 1)) * 8
                + getDigitValue (peek buf (pos + 2))) * 8
                + getDigitValue (peek buf (pos + 3)))], [], pos + 4⟩)
        else
          ⟨[Char.ofNat (getDigitValue (peek buf (pos + 1)) * 8
              + getDigitValue (peek buf (pos + 2)))], [], pos + 3⟩)
      else ⟨[Char.ofNat (getDigitValue (peek buf (pos + 1)))], [], pos + 2⟩) := by
  have hne : ∀ d : Char, isOctalDigit d = false → peek buf (pos + 1) ≠ d := by
    intro d hd hc
    rw [hc, hd] at hoct
    exact Bool.false_ne_true hoct
  rw [stringEscape,
    if_neg (hne 'n' (by decide)), if_neg (hne 't' (by decide)),
    if_neg (hne '\\' (by decide)), if_neg (hne '"' (by decide)),
    if_neg (hne 'v' (by decide)), if_neg (hne 'f' (by decide)),
    if_neg (hne 'a' (by decide)), if_neg (hne '\n' (by decide)),
    if_neg (hne '\r' (by decide)), if_pos hoct]

/-- Reduction of `stringEscape` on an `x` escape character to the hex
sub-branch. -/
theorem stringEscape_x (buf : List Char) (pos : Nat)
    (hx : peek buf (pos + 1) = 'x') :
    stringEscape buf pos =
      (if !isHexDigit (peek buf (pos + 2)) then
        ⟨[peek buf (pos + 2)], [DiagCode.InvalidHexEscapeCode], pos + 3⟩
      else if isHexDigit (peek buf (pos + 3)) then
        ⟨[Char.ofNat (getHexDigitValue (peek buf (pos + 2)) * 16
            + getHexDigitValue (peek buf (pos + 3)))], [], pos + 4⟩
      else ⟨[Char.ofNat (getHexDigitValue (peek buf (pos + 2)))], [], pos + 3⟩) := by
  rw [stringEscape,
    if_neg (by rw [hx]; decide), if_neg (by rw [hx]; decide),
    if_neg (by rw [hx]; decide), if_neg (by rw [hx]; decide),
    if_neg (by rw [hx]; decide), if_neg (by rw [hx]; decide),
    if_neg (by rw [hx]; decide), if_neg (by rw [hx]; decide),
    if_neg (by rw [hx]; decide), if_neg (by rw [hx]; decide), if_pos hx]

/-- C7: confirmed.  String-literal escape decoding maps `\n \t \\ \"
\v \f \a` to the corresponding control bytes; a backslash followed by
1-3 octal digits appends the byte of that octal value (diagnosing
`OctalEscapeCodeTooBig` above 255); `\x` followed by 1-2 hex digits
appends that byte (diagnosing `InvalidHexEscapeCode` and passing the
offending character through when no hex digit follows); any other
escaped character is diagnosed `UnknownEscapeCode` and passed through.
The source string `"a\n\x4A\101"` decodes to the bytes a, newline, J,
A; the source string `"\9"` diagnoses `UnknownEscapeCode` and decodes
to the byte 9. -/
theorem c7_string_escapes (buf : List Char) (pos : Nat) :
    ((peek buf (pos + 1) = 'n' → stringEscape buf pos = ⟨['\n'], [], pos + 2⟩) ∧
     (peek buf (pos + 1) = 't' → stringEscape buf pos = ⟨['\t'], [], pos + 2⟩) ∧
     (peek buf (pos + 1) = '\\' → stringEscape buf pos = ⟨['\\'], [], pos + 2⟩) ∧
     (peek buf (pos + 1) = '"' → stringEscape buf pos = ⟨['"'], [], pos + 2⟩) ∧
     (peek buf (pos + 1) = 'v' → stringEscape buf pos = ⟨['\x0b'], [], pos + 2⟩) ∧
     (peek buf (pos + 1) = 'f' → stringEscape buf pos = ⟨['\x0c'], [], pos + 2⟩) ∧
     (peek buf (pos + 1) = 'a' → stringEscape buf pos = ⟨['\x07'], [], pos + 2⟩)) ∧
    ((isOctalDigit (peek buf (pos + 1)) = true →
        isOctalDigit (peek buf (pos + 2)) = false →
        stringEscape buf pos =
          ⟨[Char.ofNat (getDigitValue (peek buf (pos + 1)))], [], pos + 2⟩) ∧
     (isOctalDigit (peek buf (pos + 1)) = true →
        isOctalDigit (peek buf (pos + 2)) = true →
        isOctalDigit (peek buf (pos + 3)) = false →
        stringEscape buf pos =
          ⟨[Char.ofNat (getDigitValue (peek buf (pos + 1)) * 8
              + getDigitValue (peek buf (pos + 2)))], [], pos + 3⟩) ∧
     (isOctalDigit (peek buf (pos + 1)) = true →
        isOctalDigit (peek buf (pos + 2)) = true →
        isOctalDigit (peek buf (pos + 3)) = true →
        (getDigitValue (peek buf (pos + 1)) * 8 + getDigitValue (peek buf (pos + 2))) * 8
            + getDigitValue (peek buf (pos + 3)) ≤ 255 →
        stringEscape buf pos =
          ⟨[Char.ofNat ((getDigitValue (peek buf (pos + 1)) * 8
              + getDigitValue (peek buf (pos + 2))) * 8
              + getDigitValue (peek buf (pos + 3)))], [], pos + 4⟩) ∧
     (isOctalDigit (peek buf (pos + 1)) = true →
        isOctalDigit (peek buf (pos + 2)) = true →
        isOctalDigit (peek buf (pos + 3)) = true →
        255 < (getDigitValue (peek buf (pos + 1)) * 8 + getDigitValue (peek buf (pos + 2))) * 8
            + getDigitValue (peek buf (pos + 3)) →
        stringEscape buf pos = ⟨[], [DiagCode.OctalEscapeCodeTooBig], pos + 4⟩)) ∧
    ((peek buf (pos + 1) = 'x' → isHexDigit (peek buf (pos + 2)) = false →
        stringEscape buf pos =
          ⟨[peek buf (pos + 2)], [DiagCode.InvalidHexEscapeCode], pos + 3⟩) ∧
     (peek buf (pos + 1) = 'x' → isHexDigit (peek buf (pos + 2)) = true →
        isHexDigit (peek buf (pos + 3)) = false →
        stringEscape buf pos =
          ⟨[Char.ofNat (getHexDigitValue (peek buf (pos + 2)))], [], pos + 3⟩) ∧
     (peek buf (pos + 1) = 'x' → isHexDigit (peek buf (pos + 2)) = true →
        isHexDigit (peek buf (pos + 3)) = true →
        stringEscape buf pos =
          ⟨[Char.ofNat (getHexDigitValue (peek buf (pos + 2)) * 16
              + getHexDigitValue (peek buf (pos + 3)))], [], pos + 4⟩)) ∧
    ((peek buf (pos + 1) ≠ 'n' → peek buf (pos + 1) ≠ 't' →
        peek buf (pos + 1) ≠ '\\' → peek buf (pos + 1) ≠ '"' →
        peek buf (pos + 1) ≠ 'v' → peek buf (pos + 1) ≠ 'f' →
        peek buf (pos + 1) ≠ 'a' → peek buf (pos + 1) ≠ '\n' →
        peek buf (pos + 1) ≠ '\r' → isOctalDigit (peek buf (pos + 1)) = false →
        peek buf (pos + 1) ≠ 'x' →
        stringEscape buf pos =
          ⟨[peek buf (pos + 1)], [DiagCode.UnknownEscapeCode], pos + 2⟩)) ∧
    (tokens 100 (['"', 'a', '\\', 'n', '\\', 'x', '4', 'A', '\\', '1', '0', '1', '"'])
        0 LexingMode.Normal [] [] =
      some ([⟨TokenKind.StringLiteral,
              TokenData.strLit
                ['"', 'a', '\\', 'n', '\\', 'x', '4', 'A', '\\', '1', '0', '1', '"']
                ['a', '\n', 'J', 'A'], []⟩,
             ⟨TokenKind.EndOfFile, TokenData.none_, []⟩], LexingMode.Normal, []) ∧
     tokens 100 (['"', '\\', '9', '"']) 0 LexingMode.Normal [] [] =
      some ([⟨TokenKind.StringLiteral, TokenData.strLit ['"', '\\', '9', '"'] ['9'], []⟩,
             ⟨TokenKind.EndOfFile, TokenData.none_, []⟩], LexingMode.Normal,
            [DiagCode.UnknownEscapeCode])) := by
  refine ⟨⟨?_, ?_, ?_, ?_, ?_, ?_, ?_⟩, ⟨?_, ?_, ?_, ?_⟩, ⟨?_, ?_, ?_⟩, ?_,
    by decide, by decide⟩
  · intro h; rw [stringEscape, if_pos h]
  · intro h
    rw [stringEscape, if_neg (by rw [h]; decide), if_pos h]
  · intro h
    rw [stringEscape, if_neg (by rw [h]; decide), if_neg (by rw [h]; decide), if_pos h]
  · intro h
    rw [stringEscape, if_neg (by rw [h]; decide), if_neg (by rw [h]; decide),
      if_neg (by rw [h]; decide), if_pos h]
  · intro h
    rw [stringEscape, if_neg (by rw [h]; decide), if_neg (by rw [h]; decide),
      if_neg (by rw [h]; decide), if_neg (by rw [h]; decide), if_pos h]
  · intro h
    rw [stringEscape, if_neg (by rw [h]; decide), if_neg (by rw [h]; decide),
      if_neg (by rw [h]; decide), if_neg (by rw [h]; decide),
      if_neg (by rw [h]; decide), if_pos h]
  · intro h
    rw [stringEscape, if_neg (by rw [h]; decide), if_neg (by rw [h]; decide),
      if_neg (by rw [h]; decide), if_neg (by rw [h]; decide),
      if_neg (by rw [h]; decide), if_neg (by rw [h]; decide), if_pos h]
  · intro h1 h2
    rw [stringEscape_octal buf pos h1, if_neg (by rw [h2]; decide)]
  · intro h1 h2 h3
    rw [stringEscape_octal buf pos h1, if_pos h2, if_neg (by rw [h3]; decide)]
  · intro h1 h2 h3 hle
    rw [stringEscape_octal buf pos h1, if_pos h2, if_pos h3, if_neg (by omega)]
  · intro h1 h2 h3 hgt
    rw [stringEscape_octal buf pos h1, if_pos h2, if_pos h3, if_pos (by omega)]
  · intro h1 h2
    rw [stringEscape_x buf pos h1, if_pos (by rw [h2]; decide)]
  · intro h1 h2 h3
    rw [stringEscape_x buf pos h1, if_neg (by rw [h2]; decide),
      if_neg (by rw [h3]; decide)]
  · intro h1 h2 h3
    rw [stringEscape_x buf pos h1, if_neg (by rw [h2]; decide), if_pos h3]
  · intro h1 h2 h3 h4 h5 h6 h7 h8 h9 h10 h11
    rw [stringEscape, if_neg h1, if_neg h2, if_neg h3, if_neg h4, if_neg h5,
      if_neg h6, if_neg h7, if_neg h8, if_neg h9,
      if_neg (by rw [h10]; decide), if_neg h11]

/-- Witness for C7: the two-digit octal escape `\12` decodes to the
single byte 10. -/
theorem c7_string_escapes_witness :
    stringEscape ['\\', '1', '2'] 0 = ⟨[Char.ofNat 10], [], 3⟩ := by
  have h := ((c7_string_escapes ['\\', '1', '2'] 0).2.1).2.1
    (by decide) (by decide) (by decide)
  simpa using h

/-- C10: confirmed.  A three-digit octal escape whose value exceeds 255
emits `OctalEscapeCodeTooBig` and appends no byte at all (the escape is
dropped entirely), while every octal escape with value at most 255
appends exactly one byte (three-digit escapes up to 255, and all one-
and two-digit escapes, whose values cannot exceed 63). -/
theorem c10_octal_escape_drop (buf : List Char) (pos : Nat)
    (h1 : isOctalDigit (peek buf (pos + 1)) = true) :
    (isOctalDigit (peek buf (pos + 2)) = true →
       isOctalDigit (peek buf (pos + 3)) = true →
       255 < (getDigitValue (peek buf (pos + 1)) * 8 + getDigitValue (peek buf (pos + 2))) * 8
           + getDigitValue (peek buf (pos + 3)) →
       stringEscape buf pos = ⟨[], [DiagCode.OctalEscapeCodeTooBig], pos + 4⟩) ∧
    (isOctalDigit (peek buf (pos + 2)) = true →
       isOctalDigit (peek buf (pos + 3)) = true →
       (getDigitValue (peek buf (pos + 1)) * 8 + getDigitValue (peek buf (pos + 2))) * 8
           + getDigitValue (peek buf (pos + 3)) ≤ 255 →
       (stringEscape buf pos).out.length = 1 ∧ (stringEscape buf pos).diags = []) ∧
    (isOctalDigit (peek buf (pos + 2)) = true →
       isOctalDigit (peek buf (pos + 3)) = false →
       (stringEscape buf pos).out.length = 1 ∧ (stringEscape buf pos).diags = []) ∧
    (isOctalDigit (peek buf (pos + 2)) = false →
       (stringEscape buf pos).out.length = 1 ∧ (stringEscape buf pos).diags = []) := by
  refine ⟨?_, ?_, ?_, ?_⟩
  · intro h2 h3 hgt
    rw [stringEscape_octal buf pos h1, if_pos h2, if_pos h3, if_pos (by omega)]
  · intro h2 h3 hle
    rw [stringEscape_octal buf pos h1, if_pos h2, if_pos h3, if_neg (by omega)]
    exact ⟨rfl, rfl⟩
  · intro h2 h3
    rw [stringEscape_octal buf pos h1, if_pos h2, if_neg (by rw [h3]; decide)]
    exact ⟨rfl, rfl⟩
  · intro h2
    rw [stringEscape_octal buf pos h1, if_neg (by rw [h2]; decide)]
    exact ⟨rfl, rfl⟩

/-- Witness for C10: `\400` has octal value 256 and is dropped with the
`OctalEscapeCodeTooBig` diagnostic. -/
theorem c10_octal_escape_drop_witness :
    stringEscape ['\\', '4', '0', '0'] 0 = ⟨[], [DiagCode.OctalEscapeCodeTooBig], 4⟩ := by
  have h := (c10_octal_escape_drop ['\\', '4', '0', '0'] 0 (by decide)).1
    (by decide) (by decide) (by decide)
  simpa using h

end Slang

namespace Slang

/-! ## Claim C9 (amended): supporting lemmas -/

theorem scanWhitespace_le (buf : List Char) :
    ∀ (fuel pos e : Nat), pos ≤ buf.length →
      scanWhitespace fuel buf pos = some e → e ≤ buf.length := by
  intro fuel
  induction fuel with
  | zero => intro pos e _ h; exact absurd h (by simp [scanWhitespace])
  | succ f ih =>
    intro pos e hp h
    rw [scanWhitespace] at h
    by_cases hc : (peek buf pos = ' ' || peek buf pos = '\t' ||
        peek buf pos = '\x0b' || peek buf pos = '\x0c') = true
    · rw [if_pos hc] at h
      have hne : peek buf pos ≠ '\x00' := by
        simp only [Bool.or_eq_true, decide_eq_true_eq] at hc
        rcases hc with ((hc | hc) | hc) | hc <;> (rw [hc]; decide)
      have hlt := peek_ne_null_lt hne
      exact ih (pos + 1) e (by omega) h
    · rw [if_neg hc] at h
      injection h with h2
      omega

theorem scanLineComment_le (buf : List Char) :
    ∀ (fuel pos : Nat) (dg : List DiagCode) (e : Nat) (dg' : List DiagCode),
      pos ≤ buf.length →
      scanLineComment fuel buf pos dg = some (e, dg') → e ≤ buf.length := by
  intro fuel
  induction fuel with
  | zero => intro pos dg e dg' _ h; exact absurd h (by simp [scanLineComment])
  | succ f ih =>
    intro pos dg e dg' hp h
    rw [scanLineComment] at h
    by_cases hnl : isNewline (peek buf pos) = true
    · rw [if_pos hnl] at h
      injection h with h2
      have := (Prod.mk.injEq _ _ _ _).mp h2
      omega
    · rw [if_neg hnl] at h
      by_cases hz : peek buf pos = '\x00'
      · rw [if_pos hz] at h
        by_cases hend : reallyAtEnd buf pos = true
        · rw [if_pos hend] at h
          injection h with h2
          have := (Prod.mk.injEq _ _ _ _).mp h2
          omega
        · rw [if_neg hend] at h
          have hlt : pos < buf.length := by
            simp only [reallyAtEnd, decide_eq_true_eq] at hend
            omega
          exact ih (pos + 1) _ e dg' (by omega) h
      · rw [if_neg hz] at h
        have hlt := peek_ne_null_lt hz
        exact ih (pos + 1) _ e dg' (by omega) h

theorem scanBlockComment_le (buf : List Char) :
    ∀ (fuel pos : Nat) (mode : LexingMode) (eod : Bool) (dg : List DiagCode)
      (res : ScanRes), pos ≤ buf.length →
      scanBlockComment fuel buf pos mode eod dg = some res → res.pos ≤ buf.length := by
  intro fuel
  induction fuel with
  | zero => intro pos mode eod dg res _ h; exact absurd h (by simp [scanBlockComment])
  | succ f ih =>
    intro pos mode eod dg res hp h
    rw [scanBlockComment] at h
    by_cases hz : peek buf pos = '\x00'
    · rw [if_pos hz] at h
      by_cases hend : reallyAtEnd buf pos = true
      · rw [if_pos hend] at h
        injection h with h2
        rw [← h2]
        exact hp
      · rw [if_neg hend] at h
        exact ih pos mode eod _ res hp h
    · rw [if_neg hz] at h
      have hlt := peek_ne_null_lt hz
      by_cases hstar : (peek buf pos = '*' && peek buf (pos + 1) = '/') = true
      · rw [if_pos hstar] at h
        injection h with h2
        rw [← h2]
        simp only [Bool.and_eq_true, decide_eq_true_eq] at hstar
        have : pos + 1 < buf.length :=
          peek_ne_null_lt (by rw [hstar.2]; decide)
        show pos + 2 ≤ buf.length
        omega
      · rw [if_neg hstar] at h
        by_cases hnest : (peek buf pos = '/' && peek buf (pos + 1) = '*') = true
        · rw [if_pos hnest] at h
          simp only [Bool.and_eq_true, decide_eq_true_eq] at hnest
          have : pos + 1 < buf.length :=
            peek_ne_null_lt (by rw [hnest.2]; decide)
          exact ih (pos + 2) mode eod _ res (by omega) h
        · rw [if_neg hnest] at h
          by_cases hdir : (mode ≠ LexingMode.Normal && isNewline (peek buf pos)) = true
          · rw [if_pos hdir] at h
            exact ih (pos + 1) _ _ _ res (by omega) h
          · rw [if_neg hdir] at h
            exact ih (pos + 1) _ _ _ res (by omega) h

theorem lexTrivia_le (buf : List Char) :
    ∀ (fuel pos : Nat) (mode : LexingMode) (tr : List TriviaKind)
      (dg : List DiagCode) (t : TriviaRes), pos ≤ buf.length →
      lexTrivia fuel buf pos mode tr dg = some t → t.pos ≤ buf.length := by
  intro fuel
  induction fuel with
  | zero => intro pos mode tr dg t _ h; exact absurd h (by simp [lexTrivia])
  | succ f ih =>
    intro pos mode tr dg t hp h
    rw [lexTrivia] at h
    by_cases hws : (peek buf pos = ' ' || peek buf pos = '\t' ||
        peek buf pos = '\x0b' || peek buf pos = '\x0c') = true
    · rw [if_pos hws] at h
      simp only [Option.bind_eq_bind, Option.bind_eq_some] at h
      obtain ⟨e, he, h⟩ := h
      have hne : peek buf pos ≠ '\x00' := by
        simp only [Bool.or_eq_true, decide_eq_true_eq] at hws
        rcases hws with ((hc | hc) | hc) | hc <;> (rw [hc]; decide)
      have hlt := peek_ne_null_lt hne
      have he' := scanWhitespace_le buf f (pos + 1) e (by omega) he
      exact ih e mode _ dg t he' h
    · rw [if_neg hws] at h
      by_cases hlc : (peek buf pos = '/' && peek buf (pos + 1) = '/') = true
      · rw [if_pos hlc] at h
        simp only [Option.bind_eq_bind, Option.bind_eq_some] at h
        obtain ⟨⟨e, dgs⟩, he, h⟩ := h
        simp only [Bool.and_eq_true, decide_eq_true_eq] at hlc
        have h1 : pos + 1 < buf.length := peek_ne_null_lt (by rw [hlc.2]; decide)
        have he' := scanLineComment_le buf f (pos + 2) [] e dgs (by omega) he
        exact ih e mode _ _ t he' h
      · rw [if_neg hlc] at h
        by_cases hbc : (peek buf pos = '/' && peek buf (pos + 1) = '*') = true
        · rw [if_pos hbc] at h
          simp only [Option.bind_eq_bind, Option.bind_eq_some] at h
          obtain ⟨bres, hb, h⟩ := h
          simp only [Bool.and_eq_true, decide_eq_true_eq] at hbc
          have h1 : pos + 1 < buf.length := peek_ne_null_lt (by rw [hbc.2]; decide)
          have hb' := scanBlockComment_le buf f (pos + 2) mode false [] bres
            (by omega) hb
          by_cases heod : bres.eod = true
          · rw [if_pos heod] at h
            injection h with h2
            rw [← h2]
            exact hb'
          · rw [if_neg heod] at h
            exact ih bres.pos bres.mode _ _ t hb' h
        · rw [if_neg hbc] at h
          by_cases hcr : peek buf pos = '\r'
          · rw [if_pos hcr] at h
            have h1 : pos < buf.length := peek_ne_null_lt (by rw [hcr]; decide)
            have hb2 : (if peek buf (pos + 1) = '\n' then pos + 2 else pos + 1) ≤
                buf.length := by
              by_cases hn : peek buf (pos + 1) = '\n'
              · rw [if_pos hn]
                have : pos + 1 < buf.length := peek_ne_null_lt (by rw [hn]; decide)
                omega
              · rw [if_neg hn]
                omega
            by_cases hm : mode ≠ LexingMode.Normal
            · rw [if_pos hm] at h
              injection h with h2
              rw [← h2]
              exact hb2
            · rw [if_neg hm] at h
              exact ih _ mode _ dg t hb2 h
          · rw [if_neg hcr] at h
            by_cases hnl : peek buf pos = '\n'
            · rw [if_pos hnl] at h
              have h1 : pos < buf.length := peek_ne_null_lt (by rw [hnl]; decide)
              by_cases hm : mode ≠ LexingMode.Normal
              · rw [if_pos hm] at h
                injection h with h2
                rw [← h2]
                show pos + 1 ≤ buf.length
                omega
              · rw [if_neg hm] at h
                exact ih (pos + 1) mode _ dg t (by omega) h
            · rw [if_neg hnl] at h
              by_cases hbs : peek buf pos = '\\'
              · rw [if_pos hbs] at h
                by_cases hesc : (mode = LexingMode.Normal ||
                    !isNewline (peek buf pos)) = true
                · rw [if_pos hesc] at h
                  injection h with h2
                  rw [← h2]
                  exact hp
                · rw [if_neg hesc] at h
                  have h1 : pos < buf.length := peek_ne_null_lt (by rw [hbs]; decide)
                  exact ih (pos + 1) mode _ dg t (by omega) h
              · rw [if_neg hbs] at h
                injection h with h2
                rw [← h2]
                exact hp

end Slang

namespace Slang

theorem lexDollarSign_ne_eof {fuel : Nat} {buf : List Char} {mark pos : Nat}
    {mode : LexingMode} {r : TokRes}
    (h : lexDollarSign fuel buf mark pos mode = some r) :
    r.kind ≠ TokenKind.EndOfFile := by
  rw [lexDollarSign] at h
  simp only [Option.bind_eq_bind, Option.bind_eq_some] at h
  obtain ⟨e, _, h⟩ := h
  split at h <;> (injection h with h2; rw [← h2]; simp)

theorem lexEscapeSequence_ne_eof {fuel : Nat} {buf : List Char} {mark pos : Nat}
    {mode : LexingMode} {r : TokRes}
    (h : lexEscapeSequence fuel buf mark pos mode = some r) :
    r.kind ≠ TokenKind.EndOfFile := by
  rw [lexEscapeSequence] at h
  split at h
  · injection h with h2
    rw [← h2]
    simp
  · simp only [Option.bind_eq_bind, Option.bind_eq_some] at h
    obtain ⟨e, _, h⟩ := h
    injection h with h2
    rw [← h2]
    simp

theorem lexDirective_ne_eof {fuel : Nat} {buf : List Char} {mark pos : Nat}
    {mode : LexingMode} {r : TokRes}
    (h : lexDirective fuel buf mark pos mode = some r) :
    r.kind ≠ TokenKind.EndOfFile := by
  rw [lexDirective] at h
  simp only [Option.bind_eq_bind, Option.bind_eq_some] at h
  obtain ⟨e, _, h⟩ := h
  split at h
  · injection h with h2
    rw [← h2]
    simp
  · split at h <;> (injection h with h2; rw [← h2]; simp)

/-- `lexToken` produces `EndOfFile` exactly by scanning the NUL end
sentinel: the scanned character is NUL, the advanced position is past
the end pointer, and the token ends one byte past the sentinel. -/
theorem lexToken_eof (buf : List Char) (fuel pos : Nat) (mode : LexingMode)
    (r : TokRes) (h : lexToken fuel buf pos mode = some r)
    (hk : r.kind = TokenKind.EndOfFile) :
    peek buf pos = '\x00' ∧ buf.length < pos + 1 ∧ r.pos = pos + 1 := by
  by_cases hnull : peek buf pos = '\x00'
  · rw [lexToken, if_pos hnull] at h
    by_cases hle : pos + 1 ≤ buf.length
    · rw [if_pos hle] at h
      injection h with h2
      rw [← h2] at hk
      simp at hk
    · rw [if_neg hle] at h
      injection h with h2
      exact ⟨hnull, by omega, by rw [← h2]⟩
  · exfalso
    rw [lexToken, if_neg hnull] at h
    by_cases hA0 : peek buf pos = '!'
    · rw [if_pos hA0] at h
      repeat' (split at h)
      all_goals
        first
        | (injection h with h2; rw [← h2] at hk; simp at hk)
        | (simp only [Option.bind_eq_bind, Option.bind_eq_some] at h
           obtain ⟨a, _, h⟩ := h
           injection h with h2
           rw [← h2] at hk
           first
           | (simp at hk; done)
           | (rcases a with ⟨d, dg, p⟩; cases d <;> simp at hk))
        | exact lexDollarSign_ne_eof h hk
        | exact lexEscapeSequence_ne_eof h hk
        | exact lexDirective_ne_eof h hk
    rw [if_neg hA0] at h
    by_cases hA1 : peek buf pos = '\"'
    · rw [if_pos hA1] at h
      repeat' (split at h)
      all_goals
        first
        | (injection h with h2; rw [← h2] at hk; simp at hk)
        | (simp only [Option.bind_eq_bind, Option.bind_eq_some] at h
           obtain ⟨a, _, h⟩ := h
           injection h with h2
           rw [← h2] at hk
           first
           | (simp at hk; done)
           | (rcases a with ⟨d, dg, p⟩; cases d <;> simp at hk))
        | exact lexDollarSign_ne_eof h hk
        | exact lexEscapeSequence_ne_eof h hk
        | exact lexDirective_ne_eof h hk
    rw [if_neg hA1] at h
    by_cases hA2 : peek buf pos = '#'
    · rw [if_pos hA2] at h
      repeat' (split at h)
      all_goals
        first
        | (injection h with h2; rw [← h2] at hk; simp at hk)
        | (simp only [Option.bind_eq_bind, Option.bind_eq_some] at h
           obtain ⟨a, _, h⟩ := h
           injection h with h2
           rw [← h2] at hk
           first
           | (simp at hk; done)
           | (rcases a with ⟨d, dg, p⟩; cases d <;> simp at hk))
        | exact lexDollarSign_ne_eof h hk
        | exact lexEscapeSequence_ne_eof h hk
        | exact lexDirective_ne_eof h hk
    rw [if_neg hA2] at h
    by_cases hA3 : peek buf pos = '$'
    · rw [if_pos hA3] at h
      repeat' (split at h)
      all_goals
        first
        | (injection h with h2; rw [← h2] at hk; simp at hk)
        | (simp only [Option.bind_eq_bind, Option.bind_eq_some] at h
           obtain ⟨a, _, h⟩ := h
           injection h with h2
           rw [← h2] at hk
           first
           | (simp at hk; done)
           | (rcases a with ⟨d, dg, p⟩; cases d <;> simp at hk))
        | exact lexDollarSign_ne_eof h hk
        | exact lexEscapeSequence_ne_eof h hk
        | exact lexDirective_ne_eof h hk
    rw [if_neg hA3] at h
    by_cases hA4 : peek buf pos = '%'
    · rw [if_pos hA4] at h
      repeat' (split at h)
      all_goals
        first
        | (injection h with h2; rw [← h2] at hk; simp at hk)
        | (simp only [Option.bind_eq_bind, Option.bind_eq_some] at h
           obtain ⟨a, _, h⟩ := h
           injection h with h2
           rw [← h2] at hk
           first
           | (simp at hk; done)
           | (rcases a with ⟨d, dg, p⟩; cases d <;> simp at hk))
        | exact lexDollarSign_ne_eof h hk
        | exact lexEscapeSequence_ne_eof h hk
        | exact lexDirective_ne_eof h hk
    rw [if_neg hA4] at h
    by_cases hA5 : peek buf pos = '&'
    · rw [if_pos hA5] at h
      repeat' (split at h)
      all_goals
        first
        | (injection h with h2; rw [← h2] at hk; simp at hk)
        | (simp only [Option.bind_eq_bind, Option.bind_eq_some] at h
           obtain ⟨a, _, h⟩ := h
           injection h with h2
           rw [← h2] at hk
           first
           | (simp at hk; done)
           | (rcases a with ⟨d, dg, p⟩; cases d <;> simp at hk))
        | exact lexDollarSign_ne_eof h hk
        | exact lexEscapeSequence_ne_eof h hk
        | exact lexDirective_ne_eof h hk
    rw [if_neg hA5] at h
    by_cases hA6 : peek buf pos = '\''
    · rw [if_pos hA6] at h
      repeat' (split at h)
      all_goals
        first
        | (injection h with h2; rw [← h2] at hk; simp at hk)
        | (simp only [Option.bind_eq_bind, Option.bind_eq_some] at h
           obtain ⟨a, _, h⟩ := h
           injection h with h2
           rw [← h2] at hk
           first
           | (simp at hk; done)
           | (rcases a with ⟨d, dg, p⟩; cases d <;> simp at hk))
        | exact lexDollarSign_ne_eof h hk
        | exact lexEscapeSequence_ne_eof h hk
        | exact lexDirective_ne_eof h hk
    rw [if_neg hA6] at h
    by_cases hA7 : peek buf pos = '('
    · rw [if_pos hA7] at h
      repeat' (split at h)
      all_goals
        first
        | (injection h with h2; rw [← h2] at hk; simp at hk)
        | (simp only [Option.bind_eq_bind, Option.bind_eq_some] at h
           obtain ⟨a, _, h⟩ := h
           injection h with h2
           rw [← h2] at hk
           first
           | (simp at hk; done)
           | (rcases a with ⟨d, dg, p⟩; cases d <;> simp at hk))
        | exact lexDollarSign_ne_eof h hk
        | exact lexEscapeSequence_ne_eof h hk
        | exact lexDirective_ne_eof h hk
    rw [if_neg hA7] at h
    by_cases hA8 : peek buf pos = ')'
    · rw [if_pos hA8] at h
      repeat' (split at h)
      all_goals
        first
        | (injection h with h2; rw [← h2] at hk; simp at hk)
        | (simp only [Option.bind_eq_bind, Option.bind_eq_some] at h
           obtain ⟨a, _, h⟩ := h
           injection h with h2
           rw [← h2] at hk
           first
           | (simp at hk; done)
           | (rcases a with ⟨d, dg, p⟩; cases d <;> simp at hk))
        | exact lexDollarSign_ne_eof h hk
        | exact lexEscapeSequence_ne_eof h hk
        | exact lexDirective_ne_eof h hk
    rw [if_neg hA8] at h
    by_cases hA9 : peek buf pos = '*'
    · rw [if_pos hA9] at h
      repeat' (split at h)
      all_goals
        first
        | (injection h with h2; rw [← h2] at hk; simp at hk)
        | (simp only [Option.bind_eq_bind, Option.bind_eq_some] at h
           obtain ⟨a, _, h⟩ := h
           injection h with h2
           rw [← h2] at hk
           first
           | (simp at hk; done)
           | (rcases a with ⟨d, dg, p⟩; cases d <;> simp at hk))
        | exact lexDollarSign_ne_eof h hk
        | exact lexEscapeSequence_ne_eof h hk
        | exact lexDirective_ne_eof h hk
    rw [if_neg hA9] at h
    by_cases hA10 : peek buf pos = '+'
    · rw [if_pos hA10] at h
      repeat' (split at h)
      all_goals
        first
        | (injection h with h2; rw [← h2] at hk; simp at hk)
        | (simp only [Option.bind_eq_bind, Option.bind_eq_some] at h
           obtain ⟨a, _, h⟩ := h
           injection h with h2
           rw [← h2] at hk
           first
           | (simp at hk; done)
           | (rcases a with ⟨d, dg, p⟩; cases d <;> simp at hk))
        | exact lexDollarSign_ne_eof h hk
        | exact lexEscapeSequence_ne_eof h hk
        | exact lexDirective_ne_eof h hk
    rw [if_neg hA10] at h
    by_cases hA11 : peek buf pos = ','
    · rw [if_pos hA11] at h
      repeat' (split at h)
      all_goals
        first
        | (injection h with h2; rw [← h2] at hk; simp at hk)
        | (simp only [Option.bind_eq_bind, Option.bind_eq_some] at h
           obtain ⟨a, _, h⟩ := h
           injection h with h2
           rw [← h2] at hk
           first
           | (simp at hk; done)
           | (rcases a with ⟨d, dg, p⟩; cases d <;> simp at hk))
        | exact lexDollarSign_ne_eof h hk
        | exact lexEscapeSequence_ne_eof h hk
        | exact lexDirective_ne_eof h hk
    rw [if_neg hA11] at h
    by_cases hA12 : peek buf pos = '-'
    · rw [if_pos hA12] at h
      repeat' (split at h)
      all_goals
        first
        | (injection h with h2; rw [← h2] at hk; simp at hk)
        | (simp only [Option.bind_eq_bind, Option.bind_eq_some] at h
           obtain ⟨a, _, h⟩ := h
           injection h with h2
           rw [← h2] at hk
           first
           | (simp at hk; done)
           | (rcases a with ⟨d, dg, p⟩; cases d <;> simp at hk))
        | exact lexDollarSign_ne_eof h hk
        | exact lexEscapeSequence_ne_eof h hk
        | exact lexDirective_ne_eof h hk
    rw [if_neg hA12] at h
    by_cases hA13 : peek buf pos = '.'
    · rw [if_pos hA13] at h
      repeat' (split at h)
      all_goals
        first
        | (injection h with h2; rw [← h2] at hk; simp at hk)
        | (simp only [Option.bind_eq_bind, Option.bind_eq_some] at h
           obtain ⟨a, _, h⟩ := h
           injection h with h2
           rw [← h2] at hk
           first
           | (simp at hk; done)
           | (rcases a with ⟨d, dg, p⟩; cases d <;> simp at hk))
        | exact lexDollarSign_ne_eof h hk
        | exact lexEscapeSequence_ne_eof h hk
        | exact lexDirective_ne_eof h hk
    rw [if_neg hA13] at h
    by_cases hA14 : peek buf pos = '/'
    · rw [if_pos hA14] at h
      repeat' (split at h)
      all_goals
        first
        | (injection h with h2; rw [← h2] at hk; simp at hk)
        | (simp only [Option.bind_eq_bind, Option.bind_eq_some] at h
           obtain ⟨a, _, h⟩ := h
           injection h with h2
           rw [← h2] at hk
           first
           | (simp at hk; done)
           | (rcases a with ⟨d, dg, p⟩; cases d <;> simp at hk))
        | exact lexDollarSign_ne_eof h hk
        | exact lexEscapeSequence_ne_eof h hk
        | exact lexDirective_ne_eof h hk
    rw [if_neg hA14] at h
    by_cases hA15 : isDecimalDigit (peek buf pos) = true
    · rw [if_pos hA15] at h
      repeat' (split at h)
      all_goals
        first
        | (injection h with h2; rw [← h2] at hk; simp at hk)
        | (simp only [Option.bind_eq_bind, Option.bind_eq_some] at h
           obtain ⟨a, _, h⟩ := h
           injection h with h2
           rw [← h2] at hk
           first
           | (simp at hk; done)
           | (rcases a with ⟨d, dg, p⟩; cases d <;> simp at hk))
        | exact lexDollarSign_ne_eof h hk
        | exact lexEscapeSequence_ne_eof h hk
        | exact lexDirective_ne_eof h hk
    rw [if_neg hA15] at h
    by_cases hA16 : peek buf pos = ':'
    · rw [if_pos hA16] at h
      repeat' (split at h)
      all_goals
        first
        | (injection h with h2; rw [← h2] at hk; simp at hk)
        | (simp only [Option.bind_eq_bind, Option.bind_eq_some] at h
           obtain ⟨a, _, h⟩ := h
           injection h with h2
           rw [← h2] at hk
           first
           | (simp at hk; done)
           | (rcases a with ⟨d, dg, p⟩; cases d <;> simp at hk))
        | exact lexDollarSign_ne_eof h hk
        | exact lexEscapeSequence_ne_eof h hk
        | exact lexDirective_ne_eof h hk
    rw [if_neg hA16] at h
    by_cases hA17 : peek buf pos = ';'
    · rw [if_pos hA17] at h
      repeat' (split at h)
      all_goals
        first
        | (injection h with h2; rw [← h2] at hk; simp at hk)
        | (simp only [Option.bind_eq_bind, Option.bind_eq_some] at h
           obtain ⟨a, _, h⟩ := h
           injection h with h2
           rw [← h2] at hk
           first
           | (simp at hk; done)
           | (rcases a with ⟨d, dg, p⟩; cases d <;> simp at hk))
        | exact lexDollarSign_ne_eof h hk
        | exact lexEscapeSequence_ne_eof h hk
        | exact lexDirective_ne_eof h hk
    rw [if_neg hA17] at h
    by_cases hA18 : peek buf pos = '<'
    · rw [if_pos hA18] at h
      repeat' (split at h)
      all_goals
        first
        | (injection h with h2; rw [← h2] at hk; simp at hk)
        | (simp only [Option.bind_eq_bind, Option.bind_eq_some] at h
           obtain ⟨a, _, h⟩ := h
           injection h with h2
           rw [← h2] at hk
           first
           | (simp at hk; done)
           | (rcases a with ⟨d, dg, p⟩; cases d <;> simp at hk))
        | exact lexDollarSign_ne_eof h hk
        | exact lexEscapeSequence_ne_eof h hk
        | exact lexDirective_ne_eof h hk
    rw [if_neg hA18] at h
    by_cases hA19 : peek buf pos = '='
    · rw [if_pos hA19] at h
      repeat' (split at h)
      all_goals
        first
        | (injection h with h2; rw [← h2] at hk; simp at hk)
        | (simp only [Option.bind_eq_bind, Option.bind_eq_some] at h
           obtain ⟨a, _, h⟩ := h
           injection h with h2
           rw [← h2] at hk
           first
           | (simp at hk; done)
           | (rcases a with ⟨d, dg, p⟩; cases d <;> simp at hk))
        | exact lexDollarSign_ne_eof h hk
        | exact lexEscapeSequence_ne_eof h hk
        | exact lexDirective_ne_eof h hk
    rw [if_neg hA19] at h
    by_cases hA20 : peek buf pos = '>'
    · rw [if_pos hA20] at h
      repeat' (split at h)
      all_goals
        first
        | (injection h with h2; rw [← h2] at hk; simp at hk)
        | (simp only [Option.bind_eq_bind, Option.bind_eq_some] at h
           obtain ⟨a, _, h⟩ := h
           injection h with h2
           rw [← h2] at hk
           first
           | (simp at hk; done)
           | (rcases a with ⟨d, dg, p⟩; cases d <;> simp at hk))
        | exact lexDollarSign_ne_eof h hk
        | exact lexEscapeSequence_ne_eof h hk
        | exact lexDirective_ne_eof h hk
    rw [if_neg hA20] at h
    by_cases hA21 : peek buf pos = '?'
    · rw [if_pos hA21] at h
      repeat' (split at h)
      all_goals
        first
        | (injection h with h2; rw [← h2] at hk; simp at hk)
        | (simp only [Option.bind_eq_bind, Option.bind_eq_some] at h
           obtain ⟨a, _, h⟩ := h
           injection h with h2
           rw [← h2] at hk
           first
           | (simp at hk; done)
           | (rcases a with ⟨d, dg, p⟩; cases d <;> simp at hk))
        | exact lexDollarSign_ne_eof h hk
        | exact lexEscapeSequence_ne_eof h hk
        | exact lexDirective_ne_eof h hk
    rw [if_neg hA21] at h
    by_cases hA22 : peek buf pos = '@'
    · rw [if_pos hA22] at h
      repeat' (split at h)
      all_goals
        first
        | (injection h with h2; rw [← h2] at hk; simp at hk)
        | (simp only [Option.bind_eq_bind, Option.bind_eq_some] at h
           obtain ⟨a, _, h⟩ := h
           injection h with h2
           rw [← h2] at hk
           first
           | (simp at hk; done)
           | (rcases a with ⟨d, dg, p⟩; cases d <;> simp at hk))
        | exact lexDollarSign_ne_eof h hk
        | exact lexEscapeSequence_ne_eof h hk
        | exact lexDirective_ne_eof h hk
    rw [if_neg hA22] at h
    by_cases hA23 : (('A' ≤ peek buf pos && peek buf pos ≤ 'Z') || ('a' ≤ peek buf pos && peek buf pos ≤ 'z') || peek buf pos = '_') = true
    · rw [if_pos hA23] at h
      repeat' (split at h)
      all_goals
        first
        | (injection h with h2; rw [← h2] at hk; simp at hk)
        | (simp only [Option.bind_eq_bind, Option.bind_eq_some] at h
           obtain ⟨a, _, h⟩ := h
           injection h with h2
           rw [← h2] at hk
           first
           | (simp at hk; done)
           | (rcases a with ⟨d, dg, p⟩; cases d <;> simp at hk))
        | exact lexDollarSign_ne_eof h hk
        | exact lexEscapeSequence_ne_eof h hk
        | exact lexDirective_ne_eof h hk
    rw [if_neg hA23] at h
    by_cases hA24 : peek buf pos = '['
    · rw [if_pos hA24] at h
      repeat' (split at h)
      all_goals
        first
        | (injection h with h2; rw [← h2] at hk; simp at hk)
        | (simp only [Option.bind_eq_bind, Option.bind_eq_some] at h
           obtain ⟨a, _, h⟩ := h
           injection h with h2
           rw [← h2] at hk
           first
           | (simp at hk; done)
           | (rcases a with ⟨d, dg, p⟩; cases d <;> simp at hk))
        | exact lexDollarSign_ne_eof h hk
        | exact lexEscapeSequence_ne_eof h hk
        | exact lexDirective_ne_eof h hk
    rw [if_neg hA24] at h
    by_cases hA25 : peek buf pos = '\\'
    · rw [if_pos hA25] at h
      repeat' (split at h)
      all_goals
        first
        | (injection h with h2; rw [← h2] at hk; simp at hk)
        | (simp only [Option.bind_eq_bind, Option.bind_eq_some] at h
           obtain ⟨a, _, h⟩ := h
           injection h with h2
           rw [← h2] at hk
           first
           | (simp at hk; done)
           | (rcases a with ⟨d, dg, p⟩; cases d <;> simp at hk))
        | exact lexDollarSign_ne_eof h hk
        | exact lexEscapeSequence_ne_eof h hk
        | exact lexDirective_ne_eof h hk
    rw [if_neg hA25] at h
    by_cases hA26 : peek buf pos = ']'
    · rw [if_pos hA26] at h
      repeat' (split at h)
      all_goals
        first
        | (injection h with h2; rw [← h2] at hk; simp at hk)
        | (simp only [Option.bind_eq_bind, Option.bind_eq_some] at h
           obtain ⟨a, _, h⟩ := h
           injection h with h2
           rw [← h2] at hk
           first
           | (simp at hk; done)
           | (rcases a with ⟨d, dg, p⟩; cases d <;> simp at hk))
        | exact lexDollarSign_ne_eof h hk
        | exact lexEscapeSequence_ne_eof h hk
        | exact lexDirective_ne_eof h hk
    rw [if_neg hA26] at h
    by_cases hA27 : peek buf pos = '^'
    · rw [if_pos hA27] at h
      repeat' (split at h)
      all_goals
        first
        | (injection h with h2; rw [← h2] at hk; simp at hk)
        | (simp only [Option.bind_eq_bind, Option.bind_eq_some] at h
           obtain ⟨a, _, h⟩ := h
           injection h with h2
           rw [← h2] at hk
           first
           | (simp at hk; done)
           | (rcases a with ⟨d, dg, p⟩; cases d <;> simp at hk))
        | exact lexDollarSign_ne_eof h hk
        | exact lexEscapeSequence_ne_eof h hk
        | exact lexDirective_ne_eof h hk
    rw [if_neg hA27] at h
    by_cases hA28 : peek buf pos = '`'
    · rw [if_pos hA28] at h
      repeat' (split at h)
      all_goals
        first
        | (injection h with h2; rw [← h2] at hk; simp at hk)
        | (simp only [Option.bind_eq_bind, Option.bind_eq_some] at h
           obtain ⟨a, _, h⟩ := h
           injection h with h2
           rw [← h2] at hk
           first
           | (simp at hk; done)
           | (rcases a with ⟨d, dg, p⟩; cases d <;> simp at hk))
        | exact lexDollarSign_ne_eof h hk
        | exact lexEscapeSequence_ne_eof h hk
        | exact lexDirective_ne_eof h hk
    rw [if_neg hA28] at h
    by_cases hA29 : peek buf pos = '{'
    · rw [if_pos hA29] at h
      repeat' (split at h)
      all_goals
        first
        | (injection h with h2; rw [← h2] at hk; simp at hk)
        | (simp only [Option.bind_eq_bind, Option.bind_eq_some] at h
           obtain ⟨a, _, h⟩ := h
           injection h with h2
           rw [← h2] at hk
           first
           | (simp at hk; done)
           | (rcases a with ⟨d, dg, p⟩; cases d <;> simp at hk))
        | exact lexDollarSign_ne_eof h hk
        | exact lexEscapeSequence_ne_eof h hk
        | exact lexDirective_ne_eof h hk
    rw [if_neg hA29] at h
    by_cases hA30 : peek buf pos = '|'
    · rw [if_pos hA30] at h
      repeat' (split at h)
      all_goals
        first
        | (injection h with h2; rw [← h2] at hk; simp at hk)
        | (simp only [Option.bind_eq_bind, Option.bind_eq_some] at h
           obtain ⟨a, _, h⟩ := h
           injection h with h2
           rw [← h2] at hk
           first
           | (simp at hk; done)
           | (rcases a with ⟨d, dg, p⟩; cases d <;> simp at hk))
        | exact lexDollarSign_ne_eof h hk
        | exact lexEscapeSequence_ne_eof h hk
        | exact lexDirective_ne_eof h hk
    rw [if_neg hA30] at h
    by_cases hA31 : peek buf pos = '}'
    · rw [if_pos hA31] at h
      repeat' (split at h)
      all_goals
        first
        | (injection h with h2; rw [← h2] at hk; simp at hk)
        | (simp only [Option.bind_eq_bind, Option.bind_eq_some] at h
           obtain ⟨a, _, h⟩ := h
           injection h with h2
           rw [← h2] at hk
           first
           | (simp at hk; done)
           | (rcases a with ⟨d, dg, p⟩; cases d <;> simp at hk))
        | exact lexDollarSign_ne_eof h hk
        | exact lexEscapeSequence_ne_eof h hk
        | exact lexDirective_ne_eof h hk
    rw [if_neg hA31] at h
    by_cases hA32 : peek buf pos = '~'
    · rw [if_pos hA32] at h
      repeat' (split at h)
      all_goals
        first
        | (injection h with h2; rw [← h2] at hk; simp at hk)
        | (simp only [Option.bind_eq_bind, Option.bind_eq_some] at h
           obtain ⟨a, _, h⟩ := h
           injection h with h2
           rw [← h2] at hk
           first
           | (simp at hk; done)
           | (rcases a with ⟨d, dg, p⟩; cases d <;> simp at hk))
        | exact lexDollarSign_ne_eof h hk
        | exact lexEscapeSequence_ne_eof h hk
        | exact lexDirective_ne_eof h hk
    rw [if_neg hA32] at h
    by_cases hA33 : isASCII (peek buf pos) = true
    · rw [if_pos hA33] at h
      repeat' (split at h)
      all_goals
        first
        | (injection h with h2; rw [← h2] at hk; simp at hk)
        | (simp only [Option.bind_eq_bind, Option.bind_eq_some] at h
           obtain ⟨a, _, h⟩ := h
           injection h with h2
           rw [← h2] at hk
           first
           | (simp at hk; done)
           | (rcases a with ⟨d, dg, p⟩; cases d <;> simp at hk))
        | exact lexDollarSign_ne_eof h hk
        | exact lexEscapeSequence_ne_eof h hk
        | exact lexDirective_ne_eof h hk
    rw [if_neg hA33] at h
    injection h with h2
    rw [← h2] at hk
    simp at hk

end Slang

namespace Slang

/-- C9 amended: `lex()` asserts `!reallyAtEnd()`, i.e. the cursor
strictly before the end sentinel - a condition the very call that
produces `EndOfFile` already violates when the previous token ends at
the sentinel.  Producing `EndOfFile` requires scanning the sentinel NUL
and advances the cursor past it, to end + 1, where `reallyAtEnd` holds;
hence `EndOfFile` is produced at most once per buffer and every later
call violates the assertion, so callers must stop pulling tokens after
`EndOfFile`. -/
theorem c9_eof_past_sentinel (buf : List Char) (pos fuel : Nat)
    (mode : LexingMode) (r : LexRes) (hp : pos ≤ buf.length)
    (h : lex fuel buf pos mode = some r)
    (hk : r.tok.kind = TokenKind.EndOfFile) :
    r.pos = buf.length + 1 ∧ reallyAtEnd buf r.pos = true := by
  rw [lex] at h
  simp only [Option.bind_eq_bind, Option.bind_eq_some] at h
  obtain ⟨t, ht, h⟩ := h
  obtain ⟨tr, htr, h⟩ := h
  injection h with h2
  rw [← h2] at hk
  rw [← h2]
  have hkk : tr.kind = TokenKind.EndOfFile := hk
  have hble := lexTrivia_le buf fuel pos mode [] [] t hp ht
  obtain ⟨-, h5, h6⟩ := lexToken_eof buf fuel t.pos t.mode tr htr hkk
  refine ⟨?_, ?_⟩
  · show tr.pos = buf.length + 1
    omega
  · show reallyAtEnd buf tr.pos = true
    simp only [reallyAtEnd, decide_eq_true_eq]
    omega

/-- Witness for C9: on the empty buffer the first call already sits at
the sentinel, yields `EndOfFile`, and leaves the cursor past it. -/
theorem c9_eof_past_sentinel_witness :
    (1 : Nat) = List.length ([] : List Char) + 1 ∧ reallyAtEnd [] 1 = true :=
  c9_eof_past_sentinel [] 0 10 LexingMode.Normal
    ⟨⟨TokenKind.EndOfFile, TokenData.none_, []⟩, 1, LexingMode.Normal, []⟩
    (by decide) (by decide) (by decide)

end Slang
